import Mathlib

/-!
# Verification of the typesense-python configuration and collection layer

Shallow embedding of `src/typesense/configuration.py` and
`src/typesense/collection.py`.  Python dictionaries of configuration data are
modelled by the inductive `PyVal`; Python exceptions by `PyErr`; fallible
Python code by `Except PyErr`.  The parts of the CPython standard library the
source relies on (`urllib.parse.urlparse`, `str`/`int` conversion, set
`issubset`, truthiness, iteration) are modelled explicitly next to the code
that uses them.
-/

set_option maxHeartbeats 1000000

namespace Typesense

/-- A Python value as it can appear inside a typesense configuration mapping:
strings, integers, floats (modelled as rationals, exact for the literals the
source uses), booleans, `None`, lists and string-keyed dictionaries
(association lists, first binding wins, as Python dict keys are unique). -/
inductive PyVal where
  | str (s : String)
  | int (n : Int)
  | float (q : Rat)
  | bool (b : Bool)
  | none
  | list (xs : List PyVal)
  | dict (entries : List (String × PyVal))

/-- A configuration mapping (the `config_dict` argument): a string-keyed
Python dictionary. -/
abbrev ConfigDict := List (String × PyVal)

/-- The Python exceptions relevant to the embedded code.
`configError msg` models `typesense.exceptions.ConfigError(msg)` — the
exception the `raise ConfigError(...)` statements of `configuration.py`
*intend* to raise.  However, `configuration.py` never imports or defines
`ConfigError` (its only imports are `__future__`, `time`, `typing` and
`urllib.parse`), so evaluating any `raise ConfigError(...)` actually raises
`NameError` before the exception or its message is ever constructed — the
same missing-name defect as `logger`.  The embedded code below therefore
never produces `configError`; the constructor is kept so the claims about
ConfigError can be stated and refuted.  The others model the builtin
`ValueError`, `TypeError`, `KeyError` and `NameError`. -/
inductive PyErr where
  | configError (msg : String)
  | valueError
  | typeError
  | keyError
  | nameError
deriving DecidableEq, Repr

/-- Discriminator: is the exception a `ConfigError`? -/
def PyErr.isConfigError : PyErr → Bool
  | .configError _ => true
  | _ => false

/-- `d.get(k, default)` on a Python dict: the value bound to `k`, or the
default when the key is absent. -/
def dget (d : ConfigDict) (k : String) (dflt : PyVal) : PyVal :=
  match d.find? (fun kv => kv.1 == k) with
  | some kv => kv.2
  | Option.none => dflt

/-- Whether the key `k` is present in the dict (used to state claims about
key presence as opposed to truthiness). -/
def hasKey (d : ConfigDict) (k : String) : Bool :=
  d.any (fun kv => kv.1 == k)

/-- Python truthiness (`bool(v)`): `None`, `False`, zero numbers, and empty
strings/lists/dicts are falsy, everything else is truthy. -/
def truthy : PyVal → Bool
  | .str s => !(s == "")
  | .int n => !(n == 0)
  | .float q => !(q == 0)
  | .bool b => b
  | .none => false
  | .list xs => !xs.isEmpty
  | .dict d => !d.isEmpty

/-- Python iteration `for x in v`: a string yields its characters as
one-character strings, a list its elements, a dict its keys (in insertion
order); other values raise `TypeError` (not iterable). -/
def pyIterE : PyVal → Except PyErr (List PyVal)
  | .str s => .ok (s.data.map (fun c => .str (String.singleton c)))
  | .list xs => .ok xs
  | .dict d => .ok (d.map (fun kv => .str kv.1))
  | _ => .error .typeError

/-- `v[k]` subscript access on a dict: `KeyError` when absent. -/
def pySubscript (d : List (String × PyVal)) (k : String) : Except PyErr PyVal :=
  match d.find? (fun kv => kv.1 == k) with
  | some kv => .ok kv.2
  | Option.none => .error .keyError

/-! ## `Configuration.validate_node_fields` -/

/-- Python hashability of the modelled values: lists and dicts are
unhashable; strings, numbers, booleans and `None` are hashable. -/
def pyHashable : PyVal → Bool
  | .list _ => false
  | .dict _ => false
  | _ => true

/-- `Configuration.validate_node_fields(node)`:
`isinstance(node, str)` returns `True`; otherwise
`{'host','port','protocol'}.issubset(node)` is evaluated.  For a non-set
argument `issubset` builds a temporary set from it, hashing every element:
over a dict this hashes the (string) keys and checks the key set; over a
list it hashes every element — raising `TypeError` if any element is
unhashable (a list or dict) — and then checks membership of the three key
names (a string key equals only a string element); a non-iterable value
raises `TypeError` outright. -/
def validate_node_fields : PyVal → Except PyErr Bool
  | .str _ => .ok true
  | .dict d =>
      .ok (["host", "port", "protocol"].all (fun k => d.any (fun kv => kv.1 == k)))
  | .list xs =>
      if xs.all pyHashable then
        .ok (["host", "port", "protocol"].all
          (fun k => xs.any (fun x =>
            match x with
            | .str s => s == k
            | _ => false)))
      else .error .typeError
  | _ => .error .typeError

/-- The `for node in nodes:` loop of `validate_config_dict`: stops at the
first element on which `validate_node_fields` returns false (propagating a
`TypeError` it raises).  The source's `raise ConfigError('`node` entry must
be a URL string or a dictionary with the following required keys: host,
port, protocol')` raises `NameError`, `ConfigError` being undefined in the
module. -/
def checkNodes : List PyVal → Except PyErr Unit
  | [] => .ok ()
  | x :: xs => do
      let b ← validate_node_fields x
      if b then checkNodes xs else .error .nameError

/-- `Configuration.validate_config_dict(config_dict)`: checks, in order,
`nodes` truthiness, `api_key` truthiness, each node entry, and a truthy
`nearest_node`, stopping at the first failure.  Each failure executes a
`raise ConfigError(...)` statement (with the messages "nodes is not
defined.", "api_key is not defined." — backquoted in the source — and the
node/nearest-node entry messages), but since `ConfigError` is never
imported or defined in `configuration.py`, evaluating it raises
`NameError` and no message is ever produced. -/
def validate_config_dict (d : ConfigDict) : Except PyErr Unit := do
  let nodes := dget d "nodes" .none
  if truthy nodes = false then
    .error .nameError
  else
    let api := dget d "api_key" .none
    if truthy api = false then
      .error .nameError
    else do
      let items ← pyIterE nodes
      checkNodes items
      let nn := dget d "nearest_node" .none
      if truthy nn then do
        let b ← validate_node_fields nn
        if b then .ok () else .error .nameError
      else .ok ()

/-- `Configuration.show_deprecation_warnings(config_dict)`.  The source reads
`if config_dict.get('timeout_seconds'): logger.warn(...)` (and likewise for
`master_node` and `read_replica_nodes`), but the module `configuration.py`
never imports or defines `logger`: evaluating `logger.warn(...)` raises
`NameError: name 'logger' is not defined`.  The three `if`s are written
independently, yet the first truthy legacy key aborts the function with
`NameError` before the later checks run, which the sequential branches below
reflect. -/
def show_deprecation_warnings (d : ConfigDict) : Except PyErr Unit :=
  if truthy (dget d "timeout_seconds" .none) then .error .nameError
  else if truthy (dget d "master_node" .none) then .error .nameError
  else if truthy (dget d "read_replica_nodes" .none) then .error .nameError
  else .ok ()

/-! ## Model of `urllib.parse.urlparse`

URLs are worked with as `List Char`.  The model follows CPython's
`urllib.parse.urlsplit`/`urlparse` (pre-3.11 bracketed-host handling):
scheme detection, netloc extraction after `//`, the bracket-balance
`ValueError`, fragment and query stripping, `;params` removal from the last
path segment, and the `hostname`/`port` properties (hostname lowercased,
port parsed as a decimal integer in `0..65535`, `ValueError` otherwise).
Simplifications, none of which affect the claims: `str.lower` is modelled on
ASCII letters only, `int(s, 10)` accepts only plain decimal digits (no
surrounding whitespace, sign, or underscores), and the control-character
stripping CPython applies to the raw URL is omitted. -/

/-- ASCII decimal digit (`0`..`9`). -/
def isAsciiDigit (c : Char) : Bool := 48 ≤ c.toNat && c.toNat ≤ 57

/-- ASCII letter (`A`..`Z` or `a`..`z`). -/
def isAsciiAlpha (c : Char) : Bool :=
  (65 ≤ c.toNat && c.toNat ≤ 90) || (97 ≤ c.toNat && c.toNat ≤ 122)

/-- Characters allowed in a URL scheme (`scheme_chars` in CPython). -/
def schemeChar (c : Char) : Bool :=
  isAsciiAlpha c || isAsciiDigit c || c == '+' || c == '-' || c == '.'

/-- ASCII lowercasing of one character, the model of `str.lower` on the
ASCII text handled here. -/
def asciiLower (c : Char) : Char :=
  if 65 ≤ c.toNat ∧ c.toNat ≤ 90 then Char.ofNat (c.toNat + 32) else c

/-- Split a character list at the first character satisfying `p`:
returns the part before it and, when such a character exists, the part after
it (the Python `partition`/`split(..., 1)` pattern, the separator dropped). -/
def splitFirst (p : Char → Bool) : List Char → List Char × Option (List Char)
  | [] => ([], Option.none)
  | c :: cs =>
      if p c then ([], some cs)
      else
        let r := splitFirst p cs
        (c :: r.1, r.2)

/-- The part after the last occurrence of `t` (`l.rpartition(t)[2]` in
Python); the whole list when `t` does not occur. -/
def afterLast (t : Char) (l : List Char) : List Char :=
  (l.reverse.takeWhile (fun c => !(c == t))).reverse

/-- Characters that terminate the netloc portion of a URL. -/
def netlocStop (c : Char) : Bool := c == '/' || c == '?' || c == '#'

/-- The decimal value of a digit string (used after checking
`isAsciiDigit` on every character). -/
def digitsVal (l : List Char) : Nat :=
  l.foldl (fun a c => 10 * a + (c.toNat - 48)) 0

/-- Decimal digits of a positive number, most significant first (helper for
`natDigits`; the first argument is recursion fuel, `n` itself suffices). -/
def natDigitsAux : Nat → Nat → List Char → List Char
  | 0, _, acc => acc
  | fuel + 1, n, acc =>
      if n = 0 then acc
      else natDigitsAux fuel (n / 10) (Char.ofNat (48 + n % 10) :: acc)

/-- Decimal rendering of a natural number, the model of Python `str(n)`
for `n ≥ 0`. -/
def natDigits (n : Nat) : List Char :=
  if n = 0 then ['0'] else natDigitsAux n n []

/-- The `scheme`, `netloc` and `path` components of a split URL (`query`,
`fragment` and `params` are stripped during parsing; `Node.from_url` and
`Node.url` never read them). -/
structure UrlParts where
  scheme : List Char
  netloc : List Char
  path : List Char
deriving DecidableEq, Repr

/-- Scheme detection of `urlsplit`: if the text before the first `:` is a
nonempty run of scheme characters starting with a letter, it is the scheme
(lowercased) and parsing continues after the colon; otherwise the scheme is
empty and the URL is unchanged. -/
def splitScheme (url : List Char) : List Char × List Char :=
  match splitFirst (fun c => c == ':') url with
  | (pre, some rest) =>
      match pre with
      | [] => ([], url)
      | c :: _ =>
          if isAsciiAlpha c && pre.all schemeChar then (pre.map asciiLower, rest)
          else ([], url)
  | (_, Option.none) => ([], url)

/-- Netloc extraction of `urlsplit`: when the remainder starts with `//`,
the netloc runs until the first `/`, `?` or `#` (which stays in the
remainder); otherwise the netloc is empty. -/
def splitNetloc (rest : List Char) : List Char × List Char :=
  match rest with
  | c1 :: c2 :: r =>
      if c1 = '/' ∧ c2 = '/' then
        (r.takeWhile (fun c => !netlocStop c), r.dropWhile (fun c => !netlocStop c))
      else ([], rest)
  | _ => ([], rest)

/-- `_splitparams`: remove the `;params` suffix of the last path segment
(the first `;` at or after the last `/`; the first `;` anywhere when the
path has no `/`). -/
def pathWithoutParams (p : List Char) : List Char :=
  if p.contains '/' then
    let revp := p.reverse
    let segR := revp.takeWhile (fun c => !(c == '/'))
    let initR := revp.drop segR.length
    initR.reverse ++ (splitFirst (fun c => c == ';') segR.reverse).1
  else (splitFirst (fun c => c == ';') p).1

/-- `urllib.parse.urlparse` restricted to the components `Node` uses:
scheme, netloc and path (fragment, query and params stripped).  Raises
`ValueError` when the netloc contains `[` without `]` or vice versa. -/
def urlparseE (url : List Char) : Except PyErr UrlParts :=
  let s := splitScheme url
  let nl := splitNetloc s.2
  if (nl.1.contains '[' != nl.1.contains ']') then .error .valueError
  else
    let rest3 := (splitFirst (fun c => c == '#') nl.2).1
    let path0 := (splitFirst (fun c => c == '?') rest3).1
    .ok ⟨s.1, nl.1, pathWithoutParams path0⟩

/-- `_hostinfo` of a parsed netloc: drop the userinfo (text up to the last
`@`); in the bracketed form the host is the text inside `[...]` and the port
follows the first `:` after `]`; otherwise the host is the text before the
first `:` and the port follows it.  An empty port string becomes `None`. -/
def hostinfoOf (netloc : List Char) : List Char × Option (List Char) :=
  let hi := afterLast '@' netloc
  match splitFirst (fun c => c == '[') hi with
  | (_, some bracketed) =>
      let hb := splitFirst (fun c => c == ']') bracketed
      let port : Option (List Char) :=
        match hb.2 with
        | Option.none => Option.none
        | some r => (splitFirst (fun c => c == ':') r).2
      (hb.1, match port with
             | some (c :: cs) => some (c :: cs)
             | _ => Option.none)
  | (_, Option.none) =>
      let hp := splitFirst (fun c => c == ':') hi
      (hp.1, match hp.2 with
             | some (c :: cs) => some (c :: cs)
             | _ => Option.none)

/-- The `hostname` property: `None` when the host part is empty, otherwise
the host part lowercased. -/
def UrlParts.hostname (u : UrlParts) : Option (List Char) :=
  let h := (hostinfoOf u.netloc).1
  if h.isEmpty then Option.none else some (h.map asciiLower)

/-- The `port` property: `None` when absent, the decimal value when the port
string is a number in `0..65535`, and `ValueError` otherwise. -/
def UrlParts.portE (u : UrlParts) : Except PyErr (Option Nat) :=
  match (hostinfoOf u.netloc).2 with
  | Option.none => .ok Option.none
  | some l =>
      if l.all isAsciiDigit then
        if digitsVal l ≤ 65535 then .ok (some (digitsVal l))
        else .error .valueError
      else .error .valueError

/-! ## `Node` -/

/-- A `Node`: `host`, `port`, `path` and `protocol` are stored exactly as
passed to `Node.__init__` (Python performs no conversion or check there), so
they are arbitrary Python values when built from a config record.
`healthy` is set to `True` by the constructor.  The wall-clock field
`last_access_ts` is not modelled. -/
structure Node where
  host : PyVal
  port : PyVal
  path : PyVal
  protocol : PyVal
  healthy : Bool := true

/-- `Node.from_url(url)`: parse the URL, then fail when `parsed.hostname`
is falsy, when `parsed.port` is falsy (absent or `0`; accessing it
propagates `ValueError` for an invalid port), or when `parsed.scheme` is
empty — in that order — and otherwise build
`Node(parsed.hostname, parsed.port, parsed.path, parsed.scheme)`.
Each failure branch is a `raise ConfigError('Node URL does not contain
the host name.' / '... the port.' / '... the protocol.')` in the source,
but `ConfigError` is never imported or defined in `configuration.py`, so
each of those branches actually raises `NameError`. -/
def fromUrlL (url : List Char) : Except PyErr Node := do
  let parsed ← urlparseE url
  match parsed.hostname with
  | Option.none => .error .nameError
  | some h =>
      match ← parsed.portE with
      | Option.none => .error .nameError
      | some 0 => .error .nameError
      | some (p + 1) =>
          if parsed.scheme.isEmpty then
            .error .nameError
          else
            .ok { host := .str ⟨h⟩, port := .int (p + 1),
                  path := .str ⟨parsed.path⟩, protocol := .str ⟨parsed.scheme⟩ }

/-- `Node.from_url` on a `String`. -/
def fromUrl (url : String) : Except PyErr Node := fromUrlL url.data

/-- Python `str(v)` for the value kinds a `Node` built by `from_url` can
hold (strings, integers, booleans, `None`); `None` is returned for floats,
lists and dicts, whose Python rendering is not modelled (no claim needs
it). -/
def pyStrQ : PyVal → Option (List Char)
  | .str s => some s.data
  | .int (Int.ofNat m) => some (natDigits m)
  | .int (Int.negSucc m) => some ('-' :: natDigits (m + 1))
  | .bool b => some (if b then "True".data else "False".data)
  | .none => some "None".data
  | _ => Option.none

/-- `Node.url()`: `'{0}://{1}:{2}{3}'.format(self.protocol, self.host,
self.port, self.path)`. -/
def Node.renderUrl (n : Node) : Option (List Char) := do
  let pr ← pyStrQ n.protocol
  let h ← pyStrQ n.host
  let po ← pyStrQ n.port
  let pa ← pyStrQ n.path
  some (pr ++ ':' :: '/' :: '/' :: h ++ ':' :: po ++ pa)

/-! ## `Configuration` -/

/-- The body of the node-building loop in `Configuration.__init__` (shared
with the `nearest_node` branch, which is written identically): a string
entry goes through `Node.from_url`; any other entry is subscripted as
`node_config['host']`, `node_config['port']`, `node_config.get('path', '')`,
`node_config['protocol']` — `KeyError` for a dict missing a key,
`TypeError` for a value that is not subscriptable by a string. -/
def buildNode : PyVal → Except PyErr Node
  | .str s => fromUrlL s.data
  | .dict d => do
      let h ← pySubscript d "host"
      let po ← pySubscript d "port"
      let pa := dget d "path" (.str "")
      let proto ← pySubscript d "protocol"
      .ok { host := h, port := po, path := pa, protocol := proto }
  | _ => .error .typeError

/-- The state of a `Configuration` object after `__init__` returns. -/
structure Config where
  nodes : List Node
  nearest_node : Option Node
  api_key : PyVal
  connection_timeout_seconds : PyVal
  num_retries : PyVal
  retry_interval_seconds : PyVal
  healthcheck_interval_seconds : PyVal
  verify : PyVal

/-- `Configuration.__init__(config_dict)`: run
`show_deprecation_warnings`, then `validate_config_dict` (either failure
propagates and no `Node` is built), then build the node list from
`config_dict.get('nodes', [])`, build `nearest_node` (absent when falsy,
`from_url` for a string, record fields otherwise), and read `api_key` and
the tuning settings with their defaults. -/
def configurationInit (d : ConfigDict) : Except PyErr Config := do
  show_deprecation_warnings d
  validate_config_dict d
  let items ← pyIterE (dget d "nodes" (.list []))
  let nodes ← items.mapM buildNode
  let nn := dget d "nearest_node" .none
  let nearest ← if truthy nn then (buildNode nn).map some else .ok Option.none
  .ok { nodes := nodes
        nearest_node := nearest
        api_key := dget d "api_key" (.str "")
        connection_timeout_seconds := dget d "connection_timeout_seconds" (.float 3)
        num_retries := dget d "num_retries" (.int 3)
        retry_interval_seconds := dget d "retry_interval_seconds" (.float 1)
        healthcheck_interval_seconds := dget d "healthcheck_interval_seconds" (.int 60)
        verify := dget d "verify" (.bool true) }

/-! ## `Collection` (`collection.py`)

The HTTP layer (`ApiCall`) is external to the provided source; it is
represented by an abstract handler from requests to decoded responses.  Each
wrapper method is embedded in a state monad whose state is the trace of
issued requests, so "issues exactly one request" is the statement that
running a method appends exactly one request to the trace.  The body type
`β`, params type `π` and decoded-response type `ρ` are abstract.  The
sub-resource wrappers (`documents`, `overrides`, `synonyms`) built by
`Collection.__init__` come from modules outside the provided source and do
not affect the endpoint methods, so they are not modelled. -/

inductive HttpVerb where
  | get
  | patch
  | delete
deriving DecidableEq, Repr

/-- One HTTP request issued through the api-call handle. -/
structure ApiRequest (β π : Type) where
  verb : HttpVerb
  endpoint : String
  body : Option β
  params : Option π

/-- The api-call handle: maps a request to its decoded response. -/
structure ApiCall (β π ρ : Type) where
  handle : ApiRequest β π → ρ

/-- `api_call.get(endpoint, ...)`: record the GET request and return the
handle's decoded response for it. -/
def ApiCall.get {β π ρ : Type} (a : ApiCall β π ρ) (endpoint : String) :
    StateM (List (ApiRequest β π)) ρ := do
  let req : ApiRequest β π := ⟨.get, endpoint, Option.none, Option.none⟩
  modify (fun t => t ++ [req])
  pure (a.handle req)

/-- `api_call.patch(endpoint, body, ...)`. -/
def ApiCall.patch {β π ρ : Type} (a : ApiCall β π ρ) (endpoint : String) (body : β) :
    StateM (List (ApiRequest β π)) ρ := do
  let req : ApiRequest β π := ⟨.patch, endpoint, some body, Option.none⟩
  modify (fun t => t ++ [req])
  pure (a.handle req)

/-- `api_call.delete(endpoint, params=params, ...)`. -/
def ApiCall.delete {β π ρ : Type} (a : ApiCall β π ρ) (endpoint : String)
    (params : Option π) : StateM (List (ApiRequest β π)) ρ := do
  let req : ApiRequest β π := ⟨.delete, endpoint, Option.none, params⟩
  modify (fun t => t ++ [req])
  pure (a.handle req)

/-- `Collections.RESOURCE_PATH`.  Modelled from the spec: the module
`typesense/collections.py` referenced by `Collection._endpoint_path` is not
part of the provided source; spec section 6 gives the consumed endpoints as
`/collections/{name}`. -/
def collectionsResourcePath : String := "/collections"

/-- A `Collection` resource wrapper: its name and the shared api-call
handle. -/
structure Collection (β π ρ : Type) where
  name : String
  api_call : ApiCall β π ρ

/-- `Collection._endpoint_path`:
`f"{Collections.RESOURCE_PATH}/{self.name}"`. -/
def Collection.endpointPath {β π ρ : Type} (c : Collection β π ρ) : String :=
  collectionsResourcePath ++ "/" ++ c.name

/-- `Collection.retrieve()`: one GET on the endpoint path, returning the
handle's decoded response unchanged. -/
def Collection.retrieve {β π ρ : Type} (c : Collection β π ρ) :
    StateM (List (ApiRequest β π)) ρ :=
  c.api_call.get c.endpointPath

/-- `Collection.update(schema_change)`: one PATCH on the endpoint path with
the given body. -/
def Collection.update {β π ρ : Type} (c : Collection β π ρ) (schema_change : β) :
    StateM (List (ApiRequest β π)) ρ :=
  c.api_call.patch c.endpointPath schema_change

/-- `Collection.delete(params=None)`: one DELETE on the endpoint path,
forwarding the optional params. -/
def Collection.delete {β π ρ : Type} (c : Collection β π ρ) (params : Option π) :
    StateM (List (ApiRequest β π)) ρ :=
  c.api_call.delete c.endpointPath params

/-! ## Concrete inputs used by counterexamples and witnesses -/

/-- A node entry that is neither a string nor a dict, yet passes
`validate_node_fields`: a list holding the three expected key names. -/
def listNodeValue : PyVal := .list [.str "host", .str "port", .str "protocol"]

/-- Discriminator: is the value a Python `str`? -/
def PyVal.isStr : PyVal → Bool
  | .str _ => true
  | _ => false

/-- Discriminator: is the value a Python dict? -/
def PyVal.isDict : PyVal → Bool
  | .dict _ => true
  | _ => false

/-- The configuration of spec section 8: one record node, a URL-string
nearest node, an api key, and no tuning keys. -/
def exampleConfigDict : ConfigDict :=
  [("nodes", .list [.dict [("host", .str "localhost"), ("port", .int 8108),
                           ("protocol", .str "http")]]),
   ("nearest_node", .str "http://localhost:8108"),
   ("api_key", .str "xyz")]

/-- The node both entries of `exampleConfigDict` construct. -/
def localhostNode : Node :=
  { host := .str "localhost", port := .int 8108, path := .str "",
    protocol := .str "http" }

/-- A valid configuration whose record node has empty `host` and
`protocol` values (the keys are present, which is all validation checks). -/
def emptyHostConfigDict : ConfigDict :=
  [("nodes", .list [.dict [("host", .str ""), ("port", .int 8108),
                           ("protocol", .str "")]]),
   ("api_key", .str "xyz")]

/-- The node `emptyHostConfigDict` constructs. -/
def emptyHostNode : Node :=
  { host := .str "", port := .int 8108, path := .str "", protocol := .str "" }

/-- A valid configuration that also carries the deprecated
`timeout_seconds` key. -/
def deprecatedTimeoutDict : ConfigDict :=
  [("nodes", .list [.dict [("host", .str "localhost"), ("port", .int 8108),
                           ("protocol", .str "http")]]),
   ("api_key", .str "xyz"),
   ("timeout_seconds", .int 10)]

/-- The node `from_url` builds for the bracketed-IPv6 URL
`http://[::1]:8108`. -/
def ipv6Node : Node :=
  { host := .str "::1", port := .int 8108, path := .str "",
    protocol := .str "http" }

/-! ## Helper lemmas -/

@[simp]
theorem ok_bind {ε α β : Type} (a : α) (f : α → Except ε β) :
    (Except.ok a : Except ε α) >>= f = f a := rfl

@[simp]
theorem error_bind {ε α β : Type} (e : ε) (f : α → Except ε β) :
    (Except.error e : Except ε α) >>= f = Except.error e := rfl

theorem checkNodes_append_of_ok {pre l : List PyVal}
    (h : ∀ x ∈ pre, validate_node_fields x = .ok true) :
    checkNodes (pre ++ l) = checkNodes l := by
  induction pre with
  | nil => rfl
  | cons a t ih =>
      have ha : validate_node_fields a = .ok true := h a (List.mem_cons_self _ _)
      simp only [List.cons_append, checkNodes, ha, ok_bind, if_pos]
      exact ih (fun x hx => h x (List.mem_cons_of_mem _ hx))

theorem checkNodes_all_ok {l : List PyVal}
    (h : ∀ x ∈ l, validate_node_fields x = .ok true) :
    checkNodes l = .ok () := by
  have := checkNodes_append_of_ok (l := []) h
  simpa using this

/-! ## C9 -/

/-- C9 (amended): `validate_node_fields(node)` returns true iff `node` is a
string, or a record whose key set includes all of host, port, protocol, or
a list of hashable values whose string elements include all three key names
(`issubset` builds a set from its argument, hashing every element); a list
holding an unhashable element raises `TypeError`; in particular the
function returns false for a record missing `protocol`. -/
theorem validate_node_fields_characterization :
    (∀ v : PyVal, validate_node_fields v = .ok true ↔
      ((∃ s, v = PyVal.str s) ∨
       (∃ entries, v = PyVal.dict entries ∧
          ∀ k ∈ ["host", "port", "protocol"],
            entries.any (fun kv => kv.1 == k) = true) ∨
       (∃ xs, v = PyVal.list xs ∧ xs.all pyHashable = true ∧
          ∀ k ∈ ["host", "port", "protocol"],
            (xs.any fun x => match x with
              | PyVal.str s => s == k
              | _ => false) = true))) ∧
    (∀ entries : List (String × PyVal),
      entries.any (fun kv => kv.1 == "protocol") = false →
      validate_node_fields (PyVal.dict entries) = .ok false) ∧
    (∀ xs : List PyVal, xs.all pyHashable = false →
      validate_node_fields (PyVal.list xs) = .error .typeError) := by
  refine ⟨?_, ?_, ?_⟩
  · intro v
    cases v with
    | str s => simp [validate_node_fields]
    | dict entries => simp [validate_node_fields, List.all_eq_true]
    | list xs =>
        by_cases hh : xs.all pyHashable = true
        · have hh' := List.all_eq_true.mp hh
          simp [validate_node_fields, hh]
          exact fun _ _ _ _ _ _ _ _ _ => hh'
        · have hval : validate_node_fields (PyVal.list xs) = .error .typeError := by
            simp [validate_node_fields, hh]
          rw [hval]
          constructor
          · intro h
            exact absurd h (by simp)
          · rintro (⟨s, hs⟩ | ⟨entries, he, _⟩ | ⟨ys, hy, hhash, _⟩)
            · exact PyVal.noConfusion hs
            · exact PyVal.noConfusion he
            · obtain rfl := PyVal.list.inj hy
              exact absurd hhash hh
    | int n => simp [validate_node_fields]
    | float q => simp [validate_node_fields]
    | bool b => simp [validate_node_fields]
    | none => simp [validate_node_fields]
  · intro entries h
    simp [validate_node_fields, List.all, h]
  · intro xs h
    simp [validate_node_fields, h]

/-- C9 counterexample: a list holding the three key names is neither a
string nor a record, yet `validate_node_fields` returns true on it. -/
theorem validate_node_fields_list_counterexample :
    validate_node_fields listNodeValue = .ok true ∧
    listNodeValue.isStr = false ∧ listNodeValue.isDict = false :=
  ⟨rfl, rfl, rfl⟩

/-- C9 witness: the characterization applied at a record missing
`protocol`. -/
theorem validate_node_fields_characterization_witness :
    validate_node_fields (PyVal.dict [("host", .str "localhost"),
      ("port", .int 8108)]) = .ok false ∧
    validate_node_fields (PyVal.list [.str "host", .str "port",
      .str "protocol", .list []]) = .error .typeError :=
  ⟨validate_node_fields_characterization.2.1
    [("host", .str "localhost"), ("port", .int 8108)] rfl,
   validate_node_fields_characterization.2.2
    [.str "host", .str "port", .str "protocol", .list []] rfl⟩

/-! ## C10 -/

/-- C10: when `nodes` is a nonempty string, `api_key` is truthy, and a
truthy `nearest_node` passes `validate_node_fields`, validation succeeds:
the per-node loop iterates the string's characters, each a one-character
string, which always passes `validate_node_fields`. -/
theorem validate_config_dict_string_nodes (d : ConfigDict) (s : String)
    (hn : dget d "nodes" .none = .str s) (hs : s ≠ "")
    (ha : truthy (dget d "api_key" .none) = true)
    (hnn : truthy (dget d "nearest_node" .none) = true →
           validate_node_fields (dget d "nearest_node" .none) = .ok true) :
    validate_config_dict d = .ok () := by
  have hts : truthy (PyVal.str s) = true := by
    simp [truthy, hs]
  have hiter : pyIterE (PyVal.str s) =
      .ok (s.data.map (fun c => PyVal.str (String.singleton c))) := rfl
  have hchk : checkNodes (s.data.map (fun c => PyVal.str (String.singleton c))) = .ok () := by
    apply checkNodes_all_ok
    intro x hx
    rcases List.mem_map.mp hx with ⟨c, _, rfl⟩
    rfl
  rw [validate_config_dict, hn]
  simp only [hts, Bool.true_eq_false, if_neg, ha, hiter, ok_bind, hchk,
    reduceCtorEq, not_false_iff]
  by_cases h : truthy (dget d "nearest_node" .none) = true
  · simp [h, hnn h]
  · simp [h]

/-- C10 witness: a configuration whose `nodes` value is the string
`http://x` validates successfully. -/
theorem validate_config_dict_string_nodes_witness :
    validate_config_dict [("nodes", .str "http://x"), ("api_key", .str "k")] = .ok () :=
  validate_config_dict_string_nodes _ "http://x" rfl (by decide) rfl
    (fun h => by simp [dget, truthy] at h)

/-! ## C2 -/

/-- C2 (code bug): `validate_config_dict` checks its conditions in the
claimed order, but every `raise ConfigError(...)` in it raises `NameError`,
because `ConfigError` is never imported or defined in `configuration.py`
(the same missing-name defect as `logger`).  The repository's own tests
(`test_validate_config_dict_with_no_nodes` and
`test_validate_config_dict_with_no_api_key`) expect `ConfigError` with the
messages "nodes is not defined." and "api_key is not defined."; evaluated
on exactly those test inputs, the embedded code yields `NameError`, which
is not a `ConfigError`, while a fully valid mapping still validates
successfully. -/
theorem validate_config_dict_raises_name_error :
    validate_config_dict [("nearest_node", .str "http://localhost:8108"),
      ("api_key", .str "xyz")] = .error .nameError ∧
    validate_config_dict
      [("nodes", .list [.dict [("host", .str "localhost"),
        ("port", .int 8108), ("protocol", .str "http")]]),
       ("nearest_node", .str "http://localhost:8108")] = .error .nameError ∧
    PyErr.isConfigError .nameError = false ∧
    validate_config_dict exampleConfigDict = .ok () :=
  ⟨rfl, rfl, rfl, rfl⟩

/-! ## C6 -/

/-- C6 (code bug): `configuration.py` never imports or defines `logger`, so
the first truthy deprecated key makes `show_deprecation_warnings` raise
`NameError` instead of logging a warning, and the failure propagates out of
`Configuration.__init__`; the repository's own tests
(`configuration_validations_test.py`) expect the warning text to be logged
without an exception. -/
theorem show_deprecation_warnings_name_error :
    hasKey deprecatedTimeoutDict "timeout_seconds" = true ∧
    show_deprecation_warnings deprecatedTimeoutDict = .error .nameError ∧
    configurationInit deprecatedTimeoutDict = .error .nameError :=
  ⟨rfl, rfl, rfl⟩

/-! ## C5 -/

/-- C5: on the spec's example configuration, validation succeeds and
construction yields exactly one node (host `localhost`, port `8108`,
protocol `http`, empty path), a nearest node with the same fields, and the
defaults `connection_timeout_seconds=3.0`, `num_retries=3`,
`retry_interval_seconds=1.0`, `healthcheck_interval_seconds=60`,
`verify=True`. -/
theorem configuration_example_defaults :
    validate_config_dict exampleConfigDict = .ok () ∧
    configurationInit exampleConfigDict = .ok
      { nodes := [localhostNode]
        nearest_node := some localhostNode
        api_key := .str "xyz"
        connection_timeout_seconds := .float 3
        num_retries := .int 3
        retry_interval_seconds := .float 1
        healthcheck_interval_seconds := .int 60
        verify := .bool true } :=
  ⟨rfl, rfl⟩

/-! ## C4 -/

/-- C4 counterexample: `validate_node_fields` only checks key presence and
`Node.__init__` checks nothing, so a record node with empty `host` and
`protocol` values passes validation and construction succeeds, leaving a
`Node` whose host and protocol are empty strings. -/
theorem construction_allows_empty_node_fields :
    validate_config_dict emptyHostConfigDict = .ok () ∧
    configurationInit emptyHostConfigDict = .ok
      { nodes := [emptyHostNode]
        nearest_node := Option.none
        api_key := .str "xyz"
        connection_timeout_seconds := .float 3
        num_retries := .int 3
        retry_interval_seconds := .float 1
        healthcheck_interval_seconds := .int 60
        verify := .bool true } ∧
    emptyHostNode.host = .str "" ∧ emptyHostNode.protocol = .str "" :=
  ⟨rfl, rfl, rfl, rfl⟩

/-- Success inversion for `Node.from_url`: it returns a node exactly when
the parse succeeds with a hostname, a nonzero in-range port and a nonempty
scheme, and the node stores those components. -/
theorem fromUrlL_ok_iff {u : List Char} {n : Node} :
    fromUrlL u = .ok n ↔
    ∃ parts h p, urlparseE u = .ok parts ∧ parts.hostname = some h ∧
      parts.portE = .ok (some p) ∧ 0 < p ∧ parts.scheme ≠ [] ∧
      n = { host := .str ⟨h⟩, port := .int p, path := .str ⟨parts.path⟩,
            protocol := .str ⟨parts.scheme⟩ } := by
  constructor
  · intro hok
    rw [fromUrlL] at hok
    cases hp : urlparseE u with
    | error e => rw [hp] at hok; simp at hok
    | ok parts =>
        rw [hp, ok_bind] at hok
        cases hh : parts.hostname with
        | none => rw [hh] at hok; simp at hok
        | some h =>
            rw [hh] at hok
            dsimp only at hok
            cases hpo : parts.portE with
            | error e => rw [hpo] at hok; simp at hok
            | ok po =>
                rw [hpo, ok_bind] at hok
                cases po with
                | none => simp at hok
                | some p =>
                    cases p with
                    | zero => simp at hok
                    | succ q =>
                        dsimp only at hok
                        by_cases hs : parts.scheme.isEmpty
                        · rw [if_pos hs] at hok; exact absurd hok (by simp)
                        · rw [if_neg hs] at hok
                          refine ⟨parts, h, q + 1, rfl, hh, hpo, Nat.succ_pos q,
                            ?_, ?_⟩
                          · intro hnil
                            exact hs (by simp [hnil])
                          · cases hok; rfl
  · rintro ⟨parts, h, p, hp, hh, hpo, hpos, hs, rfl⟩
    rw [fromUrlL, hp, ok_bind, hh]
    dsimp only
    rw [hpo, ok_bind]
    cases p with
    | zero => exact absurd hpos (by simp)
    | succ q =>
        dsimp only
        rw [if_neg (by simp [List.isEmpty_iff, hs])]
        simp

/-- C4 (amended): every `Node` built from a URL-string entry — via
`Node.from_url`, as `Configuration.__init__` does for string entries of
`nodes` and `nearest_node` — has a nonempty string host, a positive integer
port and a nonempty string protocol.  (Record entries carry no such
guarantee: see the counterexample.) -/
theorem url_built_node_fields_nonempty (s : String) (n : Node)
    (h : buildNode (.str s) = .ok n) :
    (∃ hs : String, n.host = .str hs ∧ hs ≠ "") ∧
    (∃ p : Nat, n.port = .int p ∧ 0 < p) ∧
    (∃ ps : String, n.protocol = .str ps ∧ ps ≠ "") := by
  have h' : fromUrlL s.data = .ok n := h
  rcases fromUrlL_ok_iff.mp h' with ⟨parts, hn, p, hp, hh, hpo, hpos, hs, rfl⟩
  refine ⟨⟨⟨hn⟩, rfl, ?_⟩, ⟨p, rfl, hpos⟩, ⟨⟨parts.scheme⟩, rfl, ?_⟩⟩
  · rw [UrlParts.hostname] at hh
    by_cases he : (hostinfoOf parts.netloc).1.isEmpty
    · rw [if_pos he] at hh; cases hh
    · rw [if_neg he] at hh
      have : hn = (hostinfoOf parts.netloc).1.map asciiLower := by
        cases hh; rfl
      subst this
      intro hcon
      have : (hostinfoOf parts.netloc).1.map asciiLower = [] := by
        have := congrArg String.data hcon
        simpa using this
      rcases List.map_eq_nil_iff.mp this with h0
      exact he (by simp [h0])
  · intro hcon
    apply hs
    have := congrArg String.data hcon
    simpa using this

/-- C4 witness: the amended theorem applied at `http://localhost:8108`. -/
theorem url_built_node_fields_nonempty_witness :
    (∃ hs : String, localhostNode.host = .str hs ∧ hs ≠ "") ∧
    (∃ p : Nat, localhostNode.port = .int p ∧ 0 < p) ∧
    (∃ ps : String, localhostNode.protocol = .str ps ∧ ps ≠ "") :=
  url_built_node_fields_nonempty "http://localhost:8108" localhostNode rfl

/-! ## C7 -/

/-- C7: `Configuration.__init__` runs `show_deprecation_warnings` first and
`validate_config_dict` second; a failure of either propagates unchanged and
construction stops there, before any node is built (the result carries no
`Config`, hence no `Node`). -/
theorem configurationInit_runs_checks_first (d : ConfigDict) :
    (∀ e, show_deprecation_warnings d = .error e →
      configurationInit d = .error e) ∧
    (∀ e, show_deprecation_warnings d = .ok () →
      validate_config_dict d = .error e →
      configurationInit d = .error e) := by
  constructor
  · intro e hw
    rw [configurationInit, hw, error_bind]
  · intro e hw hv
    rw [configurationInit, hw, ok_bind, hv, error_bind]

/-- C7 witness: with a truthy deprecated key the constructor fails with the
deprecation-check error (a `NameError`, since `logger` is undefined) even
though validation would also fail; with an empty dict it fails with the
validation error (also a `NameError`, since `ConfigError` is undefined). -/
theorem configurationInit_runs_checks_first_witness :
    configurationInit [("master_node", .str "http://x")] = .error .nameError ∧
    configurationInit ([] : ConfigDict) = .error .nameError :=
  ⟨(configurationInit_runs_checks_first _).1 .nameError rfl,
   (configurationInit_runs_checks_first _).2 .nameError rfl rfl⟩

/-! ## C8 -/

/-- C8: for every collection name, `retrieve()` issues exactly one GET to
`{collections-root}/{name}` and returns the handle's decoded response
unchanged; `update(body)` issues exactly one PATCH with that body;
`delete()` issues exactly one DELETE with no params; `delete(params)`
forwards the params. -/
theorem collection_endpoint_calls {β π ρ : Type} (a : ApiCall β π ρ)
    (n : String) (body : β) (ps : π) :
    ((Collection.mk n a : Collection β π ρ).retrieve.run [] =
      (a.handle ⟨.get, collectionsResourcePath ++ "/" ++ n, Option.none, Option.none⟩,
       [⟨.get, collectionsResourcePath ++ "/" ++ n, Option.none, Option.none⟩])) ∧
    (((Collection.mk n a : Collection β π ρ).update body).run [] =
      (a.handle ⟨.patch, collectionsResourcePath ++ "/" ++ n, some body, Option.none⟩,
       [⟨.patch, collectionsResourcePath ++ "/" ++ n, some body, Option.none⟩])) ∧
    (((Collection.mk n a : Collection β π ρ).delete Option.none).run [] =
      (a.handle ⟨.delete, collectionsResourcePath ++ "/" ++ n, Option.none, Option.none⟩,
       [⟨.delete, collectionsResourcePath ++ "/" ++ n, Option.none, Option.none⟩])) ∧
    (((Collection.mk n a : Collection β π ρ).delete (some ps)).run [] =
      (a.handle ⟨.delete, collectionsResourcePath ++ "/" ++ n, Option.none, some ps⟩,
       [⟨.delete, collectionsResourcePath ++ "/" ++ n, Option.none, some ps⟩])) :=
  ⟨rfl, rfl, rfl, rfl⟩

/-! ## C3 -/

/-- C3 counterexample: on `http://h` the parsed URL has a hostname and a
scheme but no port, so the claim demands a `ConfigError` — yet the code
raises `NameError`, because `ConfigError` is never imported or defined in
`configuration.py`, so the `raise ConfigError(...)` line itself fails. -/
theorem fromUrl_name_error_counterexample :
    fromUrl "http://h" = .error .nameError ∧
    PyErr.isConfigError .nameError = false ∧
    (urlparseE "http://h".data).map UrlParts.hostname = .ok (some ['h']) ∧
    (urlparseE "http://h".data).map UrlParts.portE = .ok (.ok Option.none) :=
  ⟨rfl, rfl, rfl, rfl⟩

theorem fromUrlL_parseError {u : List Char} {e : PyErr}
    (h : urlparseE u = .error e) : fromUrlL u = .error e := by
  rw [fromUrlL, h, error_bind]

theorem urlparseE_error_valueError {u : List Char} {e : PyErr}
    (h : urlparseE u = .error e) : e = .valueError := by
  rw [urlparseE] at h
  split at h
  · exact (Except.error.inj h).symm
  · simp at h

theorem portE_error_valueError {parts : UrlParts} {e : PyErr}
    (h : parts.portE = .error e) : e = .valueError := by
  rw [UrlParts.portE] at h
  split at h
  · simp at h
  · split at h
    · split at h
      · simp at h
      · exact (Except.error.inj h).symm
    · exact (Except.error.inj h).symm

theorem fromUrlL_noHost {u : List Char} {parts : UrlParts}
    (hp : urlparseE u = .ok parts) (hh : parts.hostname = Option.none) :
    fromUrlL u = .error .nameError := by
  rw [fromUrlL, hp, ok_bind, hh]

theorem fromUrlL_portError {u : List Char} {parts : UrlParts} {h : List Char}
    {e : PyErr} (hp : urlparseE u = .ok parts) (hh : parts.hostname = some h)
    (hpo : parts.portE = .error e) : fromUrlL u = .error e := by
  rw [fromUrlL, hp, ok_bind, hh]
  dsimp only
  rw [hpo, error_bind]

theorem fromUrlL_noPort {u : List Char} {parts : UrlParts} {h : List Char}
    (hp : urlparseE u = .ok parts) (hh : parts.hostname = some h)
    (hpo : parts.portE = .ok Option.none) :
    fromUrlL u = .error .nameError := by
  rw [fromUrlL, hp, ok_bind, hh]
  dsimp only
  rw [hpo, ok_bind]

theorem fromUrlL_portZero {u : List Char} {parts : UrlParts} {h : List Char}
    (hp : urlparseE u = .ok parts) (hh : parts.hostname = some h)
    (hpo : parts.portE = .ok (some 0)) :
    fromUrlL u = .error .nameError := by
  rw [fromUrlL, hp, ok_bind, hh]
  dsimp only
  rw [hpo, ok_bind]

theorem fromUrlL_noScheme {u : List Char} {parts : UrlParts} {h : List Char}
    {p : Nat} (hp : urlparseE u = .ok parts) (hh : parts.hostname = some h)
    (hpo : parts.portE = .ok (some p)) (hpos : 0 < p)
    (hs : parts.scheme = []) :
    fromUrlL u = .error .nameError := by
  rw [fromUrlL, hp, ok_bind, hh]
  dsimp only
  rw [hpo, ok_bind]
  cases p with
  | zero => exact absurd hpos (by simp)
  | succ q =>
      dsimp only
      rw [if_pos (by simp [hs])]

theorem fromUrlL_success {u : List Char} {parts : UrlParts} {h : List Char}
    {p : Nat} (hp : urlparseE u = .ok parts) (hh : parts.hostname = some h)
    (hpo : parts.portE = .ok (some p)) (hpos : 0 < p)
    (hs : parts.scheme ≠ []) :
    fromUrlL u = .ok { host := PyVal.str ⟨h⟩, port := PyVal.int p,
                       path := PyVal.str ⟨parts.path⟩,
                       protocol := PyVal.str ⟨parts.scheme⟩ } :=
  fromUrlL_ok_iff.mpr ⟨parts, h, p, hp, hh, hpo, hpos, hs, rfl⟩

/-- C3 (amended): `from_url` raises `NameError` — not `ConfigError`, which
is never imported or defined in `configuration.py`, so every
`raise ConfigError(...)` line itself fails — iff the parse succeeds and the
parsed hostname is missing, the parsed port is missing or `0`, or the
scheme is empty (in that checking order); a port component that is present
but not a valid integer in `0..65535` propagates `ValueError` instead (as
does a netloc with mismatched brackets, where the parse itself fails).
When `from_url` succeeds, the node's path is exactly the parsed URL's path
component (empty when the URL has none). -/
theorem fromUrl_failure_characterization (u : List Char) :
    (fromUrlL u = .error .nameError ↔
      (∃ parts, urlparseE u = .ok parts ∧
        (parts.hostname = Option.none ∨
         (parts.hostname ≠ Option.none ∧ parts.portE = .ok Option.none) ∨
         (parts.hostname ≠ Option.none ∧ parts.portE = .ok (some 0)) ∨
         (parts.hostname ≠ Option.none ∧
           (∃ p, parts.portE = .ok (some p) ∧ 0 < p) ∧
           parts.scheme = [])))) ∧
    (∀ n, fromUrlL u = .ok n →
      ∃ parts, urlparseE u = .ok parts ∧ n.path = .str ⟨parts.path⟩) := by
  constructor
  · constructor
    · intro hm
      cases hp : urlparseE u with
      | error e =>
          have he := urlparseE_error_valueError hp
          subst he
          rw [fromUrlL_parseError hp] at hm
          simp at hm
      | ok parts =>
          refine ⟨parts, rfl, ?_⟩
          cases hh : parts.hostname with
          | none => exact Or.inl rfl
          | some h =>
              cases hpo : parts.portE with
              | error e =>
                  have he := portE_error_valueError hpo
                  subst he
                  rw [fromUrlL_portError hp hh hpo] at hm
                  simp at hm
              | ok po =>
                  cases po with
                  | none => exact Or.inr (Or.inl ⟨by simp [hh], rfl⟩)
                  | some p =>
                      cases p with
                      | zero => exact Or.inr (Or.inr (Or.inl ⟨by simp [hh], rfl⟩))
                      | succ q =>
                          by_cases hs : parts.scheme = []
                          · exact Or.inr (Or.inr (Or.inr ⟨by simp [hh],
                              ⟨q + 1, rfl, Nat.succ_pos q⟩, hs⟩))
                          · rw [fromUrlL_success hp hh hpo (Nat.succ_pos q) hs] at hm
                            cases hm
    · rintro ⟨parts, hp, hcase⟩
      rcases hcase with hh | ⟨_, hpo⟩ | ⟨_, hpo⟩ | ⟨_, ⟨p, hpo, hpos⟩, hs⟩
      · exact fromUrlL_noHost hp hh
      · cases hh : parts.hostname with
        | none => exact fromUrlL_noHost hp hh
        | some h => exact fromUrlL_noPort hp hh hpo
      · cases hh : parts.hostname with
        | none => exact fromUrlL_noHost hp hh
        | some h => exact fromUrlL_portZero hp hh hpo
      · cases hh : parts.hostname with
        | none => exact fromUrlL_noHost hp hh
        | some h => exact fromUrlL_noScheme hp hh hpo hpos hs
  · intro n hn
    rcases fromUrlL_ok_iff.mp hn with ⟨parts, h, p, hp, _, _, _, _, rfl⟩
    exact ⟨parts, hp, rfl⟩

/-- C3 witness: the characterization applied at `//h:80/p` (failure with
`NameError`: empty scheme while host and port parse) and at
`http://localhost:8108/p` (success with path `/p`). -/
theorem fromUrl_failure_characterization_witness :
    fromUrlL "//h:80/p".data = .error .nameError ∧
    (∃ parts, urlparseE "http://localhost:8108/p".data = .ok parts ∧
      ({ host := PyVal.str "localhost", port := PyVal.int 8108,
         path := PyVal.str "/p", protocol := PyVal.str "http" } : Node).path =
        .str ⟨parts.path⟩) :=
  ⟨(fromUrl_failure_characterization "//h:80/p".data).1.mpr
      ⟨⟨[], "h:80".data, "/p".data⟩, rfl,
        Or.inr (Or.inr (Or.inr ⟨by decide, ⟨80, rfl, by decide⟩, rfl⟩))⟩,
   (fromUrl_failure_characterization "http://localhost:8108/p".data).2
      { host := PyVal.str "localhost", port := PyVal.int 8108,
        path := PyVal.str "/p", protocol := PyVal.str "http" } rfl⟩

/-! ## Character-level lemmas for the URL round trip -/

theorem char_toNat_ofNat {m : Nat} (h : m < 55296) : (Char.ofNat m).toNat = m := by
  have hv : m.isValidChar := Or.inl h
  rw [Char.ofNat, dif_pos hv]
  rfl

theorem char_ne_of_toNat_ne {c d : Char} (h : c.toNat ≠ d.toNat) : c ≠ d :=
  fun he => h (congrArg Char.toNat he)

theorem asciiLower_toNat (c : Char) :
    (asciiLower c).toNat =
      if 65 ≤ c.toNat ∧ c.toNat ≤ 90 then c.toNat + 32 else c.toNat := by
  by_cases h : 65 ≤ c.toNat ∧ c.toNat ≤ 90
  · rw [asciiLower, if_pos h, if_pos h]
    exact char_toNat_ofNat (by omega)
  · rw [asciiLower, if_neg h, if_neg h]

theorem asciiLower_idem (c : Char) : asciiLower (asciiLower c) = asciiLower c := by
  have h2 := asciiLower_toNat c
  by_cases h : 65 ≤ c.toNat ∧ c.toNat ≤ 90
  · rw [if_pos h] at h2
    have hn : ¬(65 ≤ (asciiLower c).toNat ∧ (asciiLower c).toNat ≤ 90) := by omega
    rw [asciiLower, if_neg hn]
  · rw [if_neg h] at h2
    have hn : ¬(65 ≤ (asciiLower c).toNat ∧ (asciiLower c).toNat ≤ 90) := by omega
    rw [asciiLower, if_neg hn]

/-- ASCII lowering never produces a character with code below 97 other than
the input itself: if the input code differs from a target `m < 97`, so does
the lowered code. -/
theorem asciiLower_toNat_ne {c : Char} {m : Nat} (hm : m < 97)
    (hne : c.toNat ≠ m) : (asciiLower c).toNat ≠ m := by
  have h2 := asciiLower_toNat c
  by_cases h : 65 ≤ c.toNat ∧ c.toNat ≤ 90
  · rw [if_pos h] at h2; omega
  · rw [if_neg h] at h2; omega

theorem isAsciiDigit_toNat {c : Char} (h : isAsciiDigit c = true) :
    48 ≤ c.toNat ∧ c.toNat ≤ 57 := by
  rw [isAsciiDigit] at h
  simp only [Bool.and_eq_true, decide_eq_true_eq] at h
  exact h

theorem isAsciiAlpha_of_toNat {c : Char}
    (h : (65 ≤ c.toNat ∧ c.toNat ≤ 90) ∨ (97 ≤ c.toNat ∧ c.toNat ≤ 122)) :
    isAsciiAlpha c = true := by
  rw [isAsciiAlpha]
  simp only [Bool.or_eq_true, Bool.and_eq_true, decide_eq_true_eq]
  exact h

theorem isAsciiAlpha_toNat {c : Char} (h : isAsciiAlpha c = true) :
    (65 ≤ c.toNat ∧ c.toNat ≤ 90) ∨ (97 ≤ c.toNat ∧ c.toNat ≤ 122) := by
  rw [isAsciiAlpha] at h
  simp only [Bool.or_eq_true, Bool.and_eq_true, decide_eq_true_eq] at h
  exact h

theorem schemeChar_cases {c : Char} (h : schemeChar c = true) :
    (65 ≤ c.toNat ∧ c.toNat ≤ 90) ∨ (97 ≤ c.toNat ∧ c.toNat ≤ 122) ∨
    (48 ≤ c.toNat ∧ c.toNat ≤ 57) ∨
    c.toNat = 43 ∨ c.toNat = 45 ∨ c.toNat = 46 := by
  rw [schemeChar] at h
  simp only [Bool.or_eq_true, beq_iff_eq] at h
  rcases h with (((ha | hd) | hp) | hm2) | hdot
  · rcases isAsciiAlpha_toNat ha with h1 | h1
    · exact Or.inl h1
    · exact Or.inr (Or.inl h1)
  · exact Or.inr (Or.inr (Or.inl (isAsciiDigit_toNat hd)))
  · subst hp; exact Or.inr (Or.inr (Or.inr (Or.inl rfl)))
  · subst hm2; exact Or.inr (Or.inr (Or.inr (Or.inr (Or.inl rfl))))
  · subst hdot; exact Or.inr (Or.inr (Or.inr (Or.inr (Or.inr rfl))))

theorem schemeChar_asciiLower {c : Char} (h : schemeChar c = true) :
    schemeChar (asciiLower c) = true := by
  have h2 := asciiLower_toNat c
  by_cases hu : 65 ≤ c.toNat ∧ c.toNat ≤ 90
  · rw [if_pos hu] at h2
    rw [schemeChar]
    simp only [Bool.or_eq_true]
    exact Or.inl (Or.inl (Or.inl (Or.inl (isAsciiAlpha_of_toNat (Or.inr (by omega))))))
  · rw [if_neg hu] at h2
    have : asciiLower c = c := by rw [asciiLower, if_neg hu]
    rw [this]
    exact h

theorem isAsciiAlpha_asciiLower {c : Char} (h : isAsciiAlpha c = true) :
    isAsciiAlpha (asciiLower c) = true := by
  have h2 := asciiLower_toNat c
  by_cases hu : 65 ≤ c.toNat ∧ c.toNat ≤ 90
  · rw [if_pos hu] at h2
    exact isAsciiAlpha_of_toNat (Or.inr (by omega))
  · rw [if_neg hu] at h2
    have : asciiLower c = c := by rw [asciiLower, if_neg hu]
    rw [this]
    exact h

/-- A scheme character, even after lowering, is not a colon. -/
theorem schemeChar_asciiLower_ne_colon {c : Char} (h : schemeChar c = true) :
    (asciiLower c == ':') = false := by
  apply beq_eq_false_iff_ne.mpr
  apply char_ne_of_toNat_ne
  show (asciiLower c).toNat ≠ 58
  apply asciiLower_toNat_ne (by omega)
  rcases schemeChar_cases h with h1 | h1 | h1 | h1 | h1 | h1 <;> omega

/-! ## List-level lemmas for the URL round trip -/

theorem splitFirst_eq_none {p : Char → Bool} {l : List Char}
    (h : ∀ c ∈ l, p c = false) : splitFirst p l = (l, Option.none) := by
  induction l with
  | nil => rfl
  | cons a t ih =>
      have ha : p a = false := h a (List.mem_cons_self _ _)
      have ht := ih (fun c hc => h c (List.mem_cons_of_mem _ hc))
      simp [splitFirst, ha, ht]

theorem splitFirst_append {p : Char → Bool} {a b : List Char} {c : Char}
    (ha : ∀ x ∈ a, p x = false) (hc : p c = true) :
    splitFirst p (a ++ c :: b) = (a, some b) := by
  induction a with
  | nil => simp [splitFirst, hc]
  | cons x t ih =>
      have hx : p x = false := ha x (List.mem_cons_self _ _)
      have ht := ih (fun y hy => ha y (List.mem_cons_of_mem _ hy))
      simp [splitFirst, hx, ht]

theorem splitFirst_fst_false {p : Char → Bool} (l : List Char) :
    ∀ c ∈ (splitFirst p l).1, p c = false := by
  induction l with
  | nil => intro c hc; cases hc
  | cons a t ih =>
      intro c hc
      by_cases hpa : p a = true
      · simp [splitFirst, hpa] at hc
      · simp only [splitFirst, hpa, if_false, Bool.false_eq_true] at hc
        rcases List.mem_cons.mp hc with rfl | hc2
        · exact Bool.not_eq_true _ ▸ eq_false_of_ne_true hpa
        · exact ih c hc2

theorem splitFirst_fst_mem {p : Char → Bool} (l : List Char) :
    ∀ c ∈ (splitFirst p l).1, c ∈ l := by
  induction l with
  | nil => intro c hc; cases hc
  | cons a t ih =>
      intro c hc
      by_cases hpa : p a = true
      · simp [splitFirst, hpa] at hc
      · simp only [splitFirst, hpa, if_false, Bool.false_eq_true] at hc
        rcases List.mem_cons.mp hc with rfl | hc2
        · exact List.mem_cons_self _ _
        · exact List.mem_cons_of_mem _ (ih c hc2)

theorem takeWhile_all_eq_self {p : Char → Bool} {l : List Char}
    (h : ∀ c ∈ l, p c = true) : l.takeWhile p = l := by
  induction l with
  | nil => rfl
  | cons a t ih =>
      rw [List.takeWhile_cons, if_pos (h a (List.mem_cons_self _ _))]
      rw [ih (fun c hc => h c (List.mem_cons_of_mem _ hc))]

theorem takeWhile_append_all {p : Char → Bool} {a b : List Char}
    (h : ∀ x ∈ a, p x = true) : (a ++ b).takeWhile p = a ++ b.takeWhile p := by
  induction a with
  | nil => rfl
  | cons x t ih =>
      rw [List.cons_append, List.takeWhile_cons,
        if_pos (h x (List.mem_cons_self _ _)),
        ih (fun y hy => h y (List.mem_cons_of_mem _ hy)), List.cons_append]

theorem dropWhile_append_all {p : Char → Bool} {a b : List Char}
    (h : ∀ x ∈ a, p x = true) : (a ++ b).dropWhile p = b.dropWhile p := by
  induction a with
  | nil => rfl
  | cons x t ih =>
      rw [List.cons_append, List.dropWhile_cons,
        if_pos (h x (List.mem_cons_self _ _)),
        ih (fun y hy => h y (List.mem_cons_of_mem _ hy))]

theorem mem_takeWhile_pred {p : Char → Bool} {l : List Char} :
    ∀ c ∈ l.takeWhile p, p c = true := by
  induction l with
  | nil => intro c hc; cases hc
  | cons a t ih =>
      intro c hc
      rw [List.takeWhile_cons] at hc
      by_cases hpa : p a = true
      · rw [if_pos hpa] at hc
        rcases List.mem_cons.mp hc with rfl | hc2
        · exact hpa
        · exact ih c hc2
      · rw [if_neg hpa] at hc
        cases hc

theorem mem_of_mem_takeWhile {p : Char → Bool} {l : List Char} :
    ∀ c ∈ l.takeWhile p, c ∈ l := by
  induction l with
  | nil => intro c hc; cases hc
  | cons a t ih =>
      intro c hc
      rw [List.takeWhile_cons] at hc
      by_cases hpa : p a = true
      · rw [if_pos hpa] at hc
        rcases List.mem_cons.mp hc with rfl | hc2
        · exact List.mem_cons_self _ _
        · exact List.mem_cons_of_mem _ (ih c hc2)
      · rw [if_neg hpa] at hc
        cases hc

theorem dropWhile_head_stop {p : Char → Bool} (l : List Char) :
    l.dropWhile p = [] ∨
    ∃ c t, l.dropWhile p = c :: t ∧ p c = false := by
  induction l with
  | nil => exact Or.inl rfl
  | cons a t ih =>
      by_cases hpa : p a = true
      · rw [List.dropWhile_cons, if_pos hpa]
        exact ih
      · refine Or.inr ⟨a, t, ?_, eq_false_of_ne_true hpa⟩
        rw [List.dropWhile_cons, if_neg hpa]

theorem afterLast_not_mem (t : Char) (l : List Char) : t ∉ afterLast t l := by
  intro hmem
  rw [afterLast, List.mem_reverse] at hmem
  have := mem_takeWhile_pred _ hmem
  simp at this

theorem afterLast_mem {t : Char} {l : List Char} :
    ∀ c ∈ afterLast t l, c ∈ l := by
  intro c hc
  rw [afterLast, List.mem_reverse] at hc
  exact List.mem_reverse.mp (mem_of_mem_takeWhile _ hc)

theorem afterLast_eq_self {t : Char} {l : List Char} (h : t ∉ l) :
    afterLast t l = l := by
  rw [afterLast, takeWhile_all_eq_self, List.reverse_reverse]
  intro c hc
  rw [List.mem_reverse] at hc
  simp only [Bool.not_eq_eq_eq_not, Bool.not_true, beq_eq_false_iff_ne]
  exact fun he => h (he ▸ hc)

/-! ## Decimal digit lemmas -/

theorem natDigitsAux_acc (n : Nat) : ∀ fuel acc, n ≤ fuel →
    natDigitsAux fuel n acc = natDigitsAux fuel n [] ++ acc := by
  induction n using Nat.strong_induction_on with
  | _ n ih =>
      intro fuel acc hle
      cases fuel with
      | zero => rfl
      | succ f =>
          by_cases h0 : n = 0
          · subst h0; rfl
          · have hdiv : n / 10 < n := Nat.div_lt_self (Nat.pos_of_ne_zero h0) (by omega)
            have hf : n / 10 ≤ f := by omega
            rw [natDigitsAux, if_neg h0, natDigitsAux, if_neg h0]
            rw [ih (n / 10) hdiv f (Char.ofNat (48 + n % 10) :: acc) hf,
              ih (n / 10) hdiv f [Char.ofNat (48 + n % 10)] hf,
              List.append_assoc]
            simp

theorem digitsVal_append_singleton (l : List Char) (c : Char) :
    digitsVal (l ++ [c]) = 10 * digitsVal l + (c.toNat - 48) := by
  rw [digitsVal, digitsVal, List.foldl_append]
  rfl

theorem natDigitsAux_spec (n : Nat) : ∀ fuel, n ≤ fuel →
    digitsVal (natDigitsAux fuel n []) = n ∧
    (∀ c ∈ natDigitsAux fuel n [], isAsciiDigit c = true) := by
  induction n using Nat.strong_induction_on with
  | _ n ih =>
      intro fuel hle
      cases fuel with
      | zero =>
          have h0 : n = 0 := Nat.le_zero.mp hle
          subst h0
          exact ⟨rfl, by intro c hc; cases hc⟩
      | succ f =>
          by_cases h0 : n = 0
          · subst h0
            exact ⟨rfl, by intro c hc; simp [natDigitsAux] at hc⟩
          · have hdiv : n / 10 < n := Nat.div_lt_self (Nat.pos_of_ne_zero h0) (by omega)
            have hf : n / 10 ≤ f := by omega
            have hmod : n % 10 < 10 := Nat.mod_lt _ (by omega)
            have hchar : (Char.ofNat (48 + n % 10)).toNat = 48 + n % 10 :=
              char_toNat_ofNat (by omega)
            rcases ih (n / 10) hdiv f hf with ⟨hval, hdig⟩
            rw [natDigitsAux, if_neg h0, natDigitsAux_acc _ _ _ hf]
            constructor
            · rw [digitsVal_append_singleton, hval, hchar]
              omega
            · intro c hc
              rcases List.mem_append.mp hc with hc2 | hc2
              · exact hdig c hc2
              · rcases List.mem_singleton.mp hc2 with rfl
                rw [isAsciiDigit]
                simp only [Bool.and_eq_true, decide_eq_true_eq, hchar]
                omega

theorem digitsVal_natDigits (n : Nat) : digitsVal (natDigits n) = n := by
  rw [natDigits]
  by_cases h0 : n = 0
  · subst h0; rfl
  · rw [if_neg h0]
    exact (natDigitsAux_spec n n (Nat.le_refl n)).1

theorem natDigits_all_digit (n : Nat) :
    ∀ c ∈ natDigits n, isAsciiDigit c = true := by
  rw [natDigits]
  by_cases h0 : n = 0
  · subst h0
    intro c hc
    rcases List.mem_singleton.mp hc with rfl
    decide
  · rw [if_neg h0]
    exact (natDigitsAux_spec n n (Nat.le_refl n)).2

theorem natDigits_ne_nil (n : Nat) : natDigits n ≠ [] := by
  rw [natDigits]
  by_cases h0 : n = 0
  · subst h0; simp
  · rw [if_neg h0]
    cases n with
    | zero => exact absurd rfl h0
    | succ m =>
        rw [natDigitsAux, if_neg h0,
          natDigitsAux_acc _ _ _ (by omega : (m + 1) / 10 ≤ m)]
        simp

/-! ## Parse-structure lemmas -/

theorem splitFirst_cons_true {p : Char → Bool} {c : Char} {l : List Char}
    (h : p c = true) : splitFirst p (c :: l) = ([], some l) := by
  simp [splitFirst, h]

theorem splitFirst_cons_false {p : Char → Bool} {c : Char} {l : List Char}
    (h : p c = false) :
    splitFirst p (c :: l) = (c :: (splitFirst p l).1, (splitFirst p l).2) := by
  simp [splitFirst, h]

theorem splitFirst_some_decomp {p : Char → Bool} {l a b : List Char}
    (h : splitFirst p l = (a, some b)) :
    ∃ c, p c = true ∧ l = a ++ c :: b := by
  induction l generalizing a with
  | nil => simp [splitFirst] at h
  | cons x t ih =>
      by_cases hpx : p x = true
      · rw [splitFirst_cons_true hpx] at h
        rcases Prod.mk.injEq .. ▸ h with ⟨h1, h2⟩
        cases Option.some.inj h2
        exact ⟨x, hpx, by rw [← h1]; rfl⟩
      · rw [splitFirst_cons_false (eq_false_of_ne_true hpx)] at h
        rcases Prod.mk.injEq .. ▸ h with ⟨h1, h2⟩
        have hx : splitFirst p t = ((splitFirst p t).1, some b) := by
          rw [← h2]
        rcases ih hx with ⟨c, hc, hdec⟩
        refine ⟨c, hc, ?_⟩
        rw [← h1]
        show x :: t = x :: ((splitFirst p t).1 ++ c :: b)
        exact congrArg _ hdec

theorem urlparseE_ok_inv {u : List Char} {parts : UrlParts}
    (h : urlparseE u = .ok parts) :
    parts.scheme = (splitScheme u).1 ∧
    parts.netloc = (splitNetloc (splitScheme u).2).1 ∧
    parts.path = pathWithoutParams
      ((splitFirst (fun c => c == '?')
        ((splitFirst (fun c => c == '#')
          (splitNetloc (splitScheme u).2).2).1)).1) ∧
    ((splitNetloc (splitScheme u).2).1.contains '[' =
      (splitNetloc (splitScheme u).2).1.contains ']') := by
  simp only [urlparseE] at h
  split at h
  · cases h
  · rename_i hbr
    cases h
    refine ⟨rfl, rfl, rfl, ?_⟩
    simpa using hbr

theorem splitNetloc_fst_mem (rest : List Char) :
    ∀ c ∈ (splitNetloc rest).1, netlocStop c = false := by
  intro c hc
  match rest with
  | [] => cases hc
  | [x] => cases hc
  | c1 :: c2 :: r =>
      simp only [splitNetloc] at hc
      split at hc
      · have := mem_takeWhile_pred _ hc
        simpa using this
      · cases hc

theorem splitScheme_fst_spec {url s rest : List Char}
    (h : splitScheme url = (s, rest)) (hne : s ≠ []) :
    ∃ pre, s = pre.map asciiLower ∧ pre ≠ [] ∧
      (∀ hd tl, pre = hd :: tl → isAsciiAlpha hd = true) ∧
      pre.all schemeChar = true ∧
      url = pre ++ ':' :: rest := by
  rcases hsf : splitFirst (fun c => c == ':') url with ⟨pre, o⟩
  rw [splitScheme, hsf] at h
  cases o with
  | none =>
      dsimp only at h
      rcases Prod.mk.injEq .. ▸ h with ⟨h1, _⟩
      exact absurd h1.symm hne
  | some rest' =>
      dsimp only at h
      cases pre with
      | nil =>
          dsimp only at h
          rcases Prod.mk.injEq .. ▸ h with ⟨h1, _⟩
          exact absurd h1.symm hne
      | cons c t =>
          dsimp only at h
          by_cases hcond : (isAsciiAlpha c && (c :: t).all schemeChar) = true
          · rw [if_pos hcond] at h
            rcases Prod.mk.injEq .. ▸ h with ⟨h1, h2⟩
            rcases Bool.and_eq_true .. ▸ hcond with ⟨halpha, hall⟩
            rcases splitFirst_some_decomp hsf with ⟨sep, hsep, hdecomp⟩
            have hsep' : sep = ':' := by
              have := beq_iff_eq.mp hsep
              exact this
            refine ⟨c :: t, h1.symm, by simp, ?_, hall, ?_⟩
            · intro hd tl he
              cases he
              exact halpha
            · rw [hdecomp, hsep', h2]
          · rw [if_neg hcond] at h
            rcases Prod.mk.injEq .. ▸ h with ⟨h1, _⟩
            exact absurd h1.symm hne

theorem hostinfoOf_nonbracket {netloc : List Char}
    (hnb : ∀ c ∈ afterLast '@' netloc, (c == '[') = false) :
    hostinfoOf netloc =
      ((splitFirst (fun c => c == ':') (afterLast '@' netloc)).1,
       match (splitFirst (fun c => c == ':') (afterLast '@' netloc)).2 with
       | some (c :: cs) => some (c :: cs)
       | _ => Option.none) := by
  simp only [hostinfoOf, splitFirst_eq_none hnb]

theorem char_toNat_ne_of_ne {c d : Char} (h : c ≠ d) : c.toNat ≠ d.toNat := by
  intro he
  apply h
  have h1 := Char.ofNat_toNat c
  have h2 := Char.ofNat_toNat d
  rw [← h1, ← h2, he]

/-- ASCII lowering cannot turn a character into a given character whose
code is below 97 unless it already was that character. -/
theorem asciiLower_preserve_ne {c d : Char} (hd : d.toNat < 97)
    (h : c ≠ d) : asciiLower c ≠ d := by
  apply char_ne_of_toNat_ne
  exact asciiLower_toNat_ne hd (char_toNat_ne_of_ne h)

theorem splitFirst_fst_append (p : Char → Bool) (l : List Char) :
    ∃ t, l = (splitFirst p l).1 ++ t := by
  induction l with
  | nil => exact ⟨[], rfl⟩
  | cons a t ih =>
      by_cases hpa : p a = true
      · rw [splitFirst_cons_true hpa]
        exact ⟨a :: t, rfl⟩
      · rw [splitFirst_cons_false (eq_false_of_ne_true hpa)]
        rcases ih with ⟨tl, htl⟩
        refine ⟨tl, ?_⟩
        show a :: t = a :: ((splitFirst p t).1 ++ tl)
        exact congrArg _ htl

theorem takeWhile_append_drop (p : Char → Bool) (l : List Char) :
    l.takeWhile p ++ l.drop (l.takeWhile p).length = l := by
  induction l with
  | nil => rfl
  | cons a t ih =>
      rw [List.takeWhile_cons]
      by_cases hpa : p a = true
      · rw [if_pos hpa]
        simp only [List.length_cons, List.drop_succ_cons, List.cons_append]
        rw [ih]
      · rw [if_neg hpa]
        rfl

/-- `pathWithoutParams` keeps an initial portion of the path. -/
theorem pathWithoutParams_suffix (p : List Char) :
    ∃ t, p = pathWithoutParams p ++ t := by
  rw [pathWithoutParams]
  by_cases hc : p.contains '/' = true
  · rw [if_pos hc]
    rcases splitFirst_fst_append (fun c => c == ';')
        ((p.reverse.takeWhile (fun c => !(c == '/'))).reverse) with ⟨t, ht⟩
    refine ⟨t, ?_⟩
    have hsplit := takeWhile_append_drop (fun c => !(c == '/')) p.reverse
    conv_lhs => rw [← List.reverse_reverse p, ← hsplit]
    rw [List.reverse_append, List.append_assoc, ← ht]
  · rw [if_neg hc]
    exact splitFirst_fst_append _ p

theorem pathWithoutParams_mem {p : List Char} :
    ∀ c ∈ pathWithoutParams p, c ∈ p := by
  intro c hc
  rcases pathWithoutParams_suffix p with ⟨t, ht⟩
  rw [ht]
  exact List.mem_append_left _ hc

theorem splitNetloc_snd_stop {x : List Char} (hne : (splitNetloc x).1 ≠ []) :
    (splitNetloc x).2 = [] ∨
    ∃ c t, (splitNetloc x).2 = c :: t ∧ netlocStop c = true := by
  match x with
  | [] => exact absurd rfl hne
  | [a] => exact absurd rfl hne
  | c1 :: c2 :: r =>
      by_cases hcc : c1 = '/' ∧ c2 = '/'
      · simp only [splitNetloc, if_pos hcc]
        rcases dropWhile_head_stop (p := fun c => !netlocStop c) r with
          h | ⟨c, t, hct, hcf⟩
        · exact Or.inl h
        · refine Or.inr ⟨c, t, hct, ?_⟩
          simpa using hcf
      · simp only [splitNetloc, if_neg hcc] at hne
        exact absurd rfl hne

theorem hostname_some_inv {parts : UrlParts} {h : List Char}
    (hh : parts.hostname = some h) :
    (hostinfoOf parts.netloc).1 ≠ [] ∧
    h = (hostinfoOf parts.netloc).1.map asciiLower := by
  rw [UrlParts.hostname] at hh
  by_cases he : (hostinfoOf parts.netloc).1.isEmpty = true
  · rw [if_pos he] at hh
    cases hh
  · rw [if_neg he] at hh
    refine ⟨?_, (Option.some.inj hh).symm⟩
    simpa [List.isEmpty_iff] using he

theorem portE_ok_some_inv {parts : UrlParts} {p : Nat}
    (h : parts.portE = .ok (some p)) :
    ∃ l, (hostinfoOf parts.netloc).2 = some l ∧ l.all isAsciiDigit = true ∧
      digitsVal l = p ∧ p ≤ 65535 := by
  rw [UrlParts.portE] at h
  cases hsnd : (hostinfoOf parts.netloc).2 with
  | none =>
      rw [hsnd] at h
      simp at h
  | some l =>
      rw [hsnd] at h
      dsimp only at h
      by_cases hd : l.all isAsciiDigit = true
      · by_cases hle : digitsVal l ≤ 65535
        · rw [if_pos hd, if_pos hle] at h
          have hv := Option.some.inj (Except.ok.inj h)
          exact ⟨l, rfl, hd, hv, hv ▸ hle⟩
        · rw [if_pos hd, if_neg hle] at h
          simp at h
      · rw [if_neg hd] at h
        simp at h

theorem splitFirst_fst_cons_false {p : Char → Bool} {c : Char} {l : List Char}
    (h : p c = false) :
    (splitFirst p (c :: l)).1 = c :: (splitFirst p l).1 := by
  rw [splitFirst_cons_false h]

theorem splitFirst_fst_cons_true {p : Char → Bool} {c : Char} {l : List Char}
    (h : p c = true) : (splitFirst p (c :: l)).1 = [] := by
  rw [splitFirst_cons_true h]

/-- The path-and-query text left after netloc extraction is empty or starts
with a stop character; after fragment and query stripping the remaining raw
path is empty or starts with `/`. -/
theorem path0_shape {rest2 : List Char}
    (hshape : rest2 = [] ∨ ∃ c t, rest2 = c :: t ∧ netlocStop c = true) :
    (splitFirst (fun c => c == '?')
      ((splitFirst (fun c => c == '#') rest2).1)).1 = [] ∨
    ∃ t2, (splitFirst (fun c => c == '?')
      ((splitFirst (fun c => c == '#') rest2).1)).1 = '/' :: t2 := by
  rcases hshape with rfl | ⟨c, t, rfl, hstop⟩
  · left; rfl
  · rw [netlocStop] at hstop
    simp only [Bool.or_eq_true, beq_iff_eq] at hstop
    rcases hstop with (rfl | rfl) | rfl
    · right
      rw [splitFirst_fst_cons_false (by decide),
        splitFirst_fst_cons_false (by decide)]
      exact ⟨_, rfl⟩
    · left
      rw [splitFirst_fst_cons_false (by decide),
        splitFirst_fst_cons_true (by decide)]
    · left
      rw [splitFirst_fst_cons_true (by decide)]
      rfl

theorem contains_eq_false_of_not_mem {l : List Char} {a : Char}
    (h : a ∉ l) : l.contains a = false := by
  simpa using h

theorem not_mem_of_contains_eq_false {l : List Char} {a : Char}
    (h : l.contains a = false) : a ∉ l := by
  simpa using h

theorem drop_takeWhile_length (p : Char → Bool) (l : List Char) :
    l.drop (l.takeWhile p).length = l.dropWhile p := by
  induction l with
  | nil => rfl
  | cons a t ih =>
      rw [List.takeWhile_cons, List.dropWhile_cons]
      by_cases hpa : p a = true
      · rw [if_pos hpa, if_pos hpa, List.length_cons, List.drop_succ_cons, ih]
      · rw [if_neg hpa, if_neg hpa]
        rfl

theorem pathWithoutParams_idem (p : List Char) :
    pathWithoutParams (pathWithoutParams p) = pathWithoutParams p := by
  by_cases hc : p.contains '/' = true
  · have hres : pathWithoutParams p =
        (p.reverse.drop
          ((p.reverse.takeWhile (fun c => !(c == '/'))).length)).reverse ++
        (splitFirst (fun c => c == ';')
          ((p.reverse.takeWhile (fun c => !(c == '/'))).reverse)).1 := by
      rw [pathWithoutParams, if_pos hc]
    rw [drop_takeWhile_length] at hres
    have hseg_mem : ∀ x ∈ (splitFirst (fun c => c == ';')
        ((p.reverse.takeWhile (fun c => !(c == '/'))).reverse)).1,
        (x == '/') = false := by
      intro x hx
      have hx2 := splitFirst_fst_mem _ _ hx
      rw [List.mem_reverse] at hx2
      have := mem_takeWhile_pred _ hx2
      simpa using this
    have hseg_nosemi := splitFirst_fst_false
      (p := fun c => c == ';')
      ((p.reverse.takeWhile (fun c => !(c == '/'))).reverse)
    rcases dropWhile_head_stop (p := fun c => !(c == '/')) p.reverse with
      hnil | ⟨c, t0, hct, hcf⟩
    · exfalso
      have happ := List.takeWhile_append_dropWhile (fun c => !(c == '/')) p.reverse
      rw [hnil, List.append_nil] at happ
      have hmem : ('/' : Char) ∈ p.reverse :=
        List.mem_reverse.mpr (by simpa using hc)
      have hin : ('/' : Char) ∈ p.reverse.takeWhile (fun c => !(c == '/')) := by
        rw [happ]; exact hmem
      have := mem_takeWhile_pred _ hin
      simp at this
    · have hc0 : c = '/' := beq_iff_eq.mp (by simpa using hcf)
      subst hc0
      rw [hct] at hres
      have hmem2 : ('/' : Char) ∈ pathWithoutParams p := by
        rw [hres]
        exact List.mem_append_left _
          (List.mem_reverse.mpr (List.mem_cons_self _ _))
      have hcontains : (pathWithoutParams p).contains '/' = true := by
        simpa using hmem2
      rw [pathWithoutParams, if_pos hcontains]
      have hrev : (pathWithoutParams p).reverse =
          ((splitFirst (fun c => c == ';')
            ((p.reverse.takeWhile (fun c => !(c == '/'))).reverse)).1).reverse ++
          ('/' :: t0) := by
        rw [hres, List.reverse_append, List.reverse_reverse]
      have hallseg : ∀ x ∈ ((splitFirst (fun c => c == ';')
          ((p.reverse.takeWhile (fun c => !(c == '/'))).reverse)).1).reverse,
          (fun c => !(c == '/')) x = true := by
        intro x hx
        rw [List.mem_reverse] at hx
        simpa using hseg_mem x hx
      have htw : ((((splitFirst (fun c => c == ';')
            ((p.reverse.takeWhile (fun c => !(c == '/'))).reverse)).1).reverse ++
          ('/' :: t0)).takeWhile (fun c => !(c == '/'))) =
          ((splitFirst (fun c => c == ';')
            ((p.reverse.takeWhile (fun c => !(c == '/'))).reverse)).1).reverse := by
        rw [takeWhile_append_all hallseg, List.takeWhile_cons, if_neg (by simp),
          List.append_nil]
      rw [hrev]
      dsimp only
      rw [htw, List.drop_left, List.reverse_reverse,
        splitFirst_eq_none hseg_nosemi]
      exact hres.symm
  · have hcf : p.contains '/' = false := eq_false_of_ne_true hc
    have hres : pathWithoutParams p = (splitFirst (fun c => c == ';') p).1 := by
      rw [pathWithoutParams, if_neg hc]
    have hns : ('/' : Char) ∉ pathWithoutParams p := by
      intro hmem
      exact not_mem_of_contains_eq_false hcf (pathWithoutParams_mem _ hmem)
    have hcf2 : ¬((pathWithoutParams p).contains '/' = true) := by
      rw [contains_eq_false_of_not_mem hns]
      simp
    rw [pathWithoutParams, if_neg hcf2, hres,
      splitFirst_eq_none (splitFirst_fst_false _)]

/-- The path a successful parse produces is empty or starts with `/`,
provided the URL has a netloc. -/
theorem parsed_path_shape {u : List Char} {parts : UrlParts}
    (h : urlparseE u = .ok parts) (hne : parts.netloc ≠ []) :
    parts.path = [] ∨ ∃ t, parts.path = '/' :: t := by
  rcases urlparseE_ok_inv h with ⟨_, hnetloc, hpath, _⟩
  have hne2 : (splitNetloc (splitScheme u).2).1 ≠ [] := by
    rw [← hnetloc]; exact hne
  rcases path0_shape (splitNetloc_snd_stop hne2) with h0 | ⟨t2, h0⟩
  · left
    rw [hpath, h0]
    rfl
  · rcases pathWithoutParams_suffix ((splitFirst (fun c => c == '?')
      ((splitFirst (fun c => c == '#')
        (splitNetloc (splitScheme u).2).2).1)).1) with ⟨ts, hts⟩
    cases hcase : pathWithoutParams ((splitFirst (fun c => c == '?')
      ((splitFirst (fun c => c == '#')
        (splitNetloc (splitScheme u).2).2).1)).1) with
    | nil =>
        left
        rw [hpath, hcase]
    | cons d ds =>
        right
        refine ⟨ds, ?_⟩
        rw [hcase] at hts
        rw [List.cons_append] at hts
        have h1 : ('/' : Char) :: t2 = d :: (ds ++ ts) := h0.symm.trans hts
        have hd : d = '/' := ((List.cons.inj h1).1).symm
        rw [hpath, hcase, hd]

theorem dropWhile_all_eq_nil {p : Char → Bool} {l : List Char}
    (h : ∀ c ∈ l, p c = true) : l.dropWhile p = [] := by
  induction l with
  | nil => rfl
  | cons a t ih =>
      rw [List.dropWhile_cons, if_pos (h a (List.mem_cons_self _ _))]
      exact ih (fun c hc => h c (List.mem_cons_of_mem _ hc))

theorem netlocStop_eq_false {c : Char} (h1 : c ≠ '/') (h2 : c ≠ '?')
    (h3 : c ≠ '#') : netlocStop c = false := by
  rw [netlocStop, beq_eq_false_iff_ne.mpr h1, beq_eq_false_iff_ne.mpr h2,
    beq_eq_false_iff_ne.mpr h3]
  rfl

theorem pyStrQ_int_ofNat (m : Nat) : pyStrQ (.int m) = some (natDigits m) := rfl

/-- Scheme detection undoes the rendering of a valid (already lowercased)
scheme followed by a colon. -/
theorem splitScheme_render {rest : List Char} {pre : List Char}
    (hne : pre ≠ [])
    (hhead : ∀ hd tl, pre = hd :: tl → isAsciiAlpha hd = true)
    (hall : pre.all schemeChar = true) :
    splitScheme (pre.map asciiLower ++ ':' :: rest) = (pre.map asciiLower, rest) := by
  have hall' : ∀ c ∈ pre, schemeChar c = true := by
    intro c hc
    exact List.all_eq_true.mp hall c hc
  have hnocolon : ∀ c ∈ pre.map asciiLower, (fun c => c == ':') c = false := by
    intro c hc
    rcases List.mem_map.mp hc with ⟨c0, hc0, rfl⟩
    exact schemeChar_asciiLower_ne_colon (hall' c0 hc0)
  have hsf := splitFirst_append (b := rest) hnocolon
    (show ((':' : Char) == ':') = true by decide)
  rw [splitScheme, hsf]
  cases pre with
  | nil => exact absurd rfl hne
  | cons c0 t0 =>
      rw [List.map_cons]
      dsimp only
      have hcond : (isAsciiAlpha (asciiLower c0) &&
          (asciiLower c0 :: List.map asciiLower t0).all schemeChar) = true := by
        rw [Bool.and_eq_true]
        constructor
        · exact isAsciiAlpha_asciiLower (hhead c0 t0 rfl)
        · rw [List.all_eq_true]
          intro x hx
          rw [← List.map_cons] at hx
          rcases List.mem_map.mp hx with ⟨y, hy, rfl⟩
          exact schemeChar_asciiLower (hall' y hy)
      rw [if_pos hcond]
      have hidem : List.map asciiLower (asciiLower c0 :: List.map asciiLower t0) =
          asciiLower c0 :: List.map asciiLower t0 := by
        rw [← List.map_cons, List.map_map]
        apply List.map_congr_left
        intro a _
        exact asciiLower_idem a
      rw [hidem]

/-- Netloc extraction undoes the rendering of a netloc (free of stop
characters) followed by the path (empty or slash-led). -/
theorem splitNetloc_render {nl pa : List Char}
    (hnl : ∀ c ∈ nl, netlocStop c = false)
    (hpa : pa = [] ∨ ∃ t, pa = '/' :: t) :
    splitNetloc ('/' :: '/' :: (nl ++ pa)) = (nl, pa) := by
  have hall : ∀ c ∈ nl, (fun c => !netlocStop c) c = true := by
    intro c hc
    simp [hnl c hc]
  rw [splitNetloc]
  rw [if_pos (⟨rfl, rfl⟩ : ('/' : Char) = '/' ∧ ('/' : Char) = '/')]
  rcases hpa with rfl | ⟨t, rfl⟩
  · rw [List.append_nil, takeWhile_all_eq_self hall, dropWhile_all_eq_nil hall]
  · rw [takeWhile_append_all hall, dropWhile_append_all hall,
      List.takeWhile_cons, if_neg (by decide), List.dropWhile_cons,
      if_neg (by decide), List.append_nil]

/-- C1 counterexample: `from_url` accepts the bracketed-IPv6 URL
`http://[::1]:8108` (host `::1`, port `8108`, scheme `http`), but `url()`
renders `http://::1:8108`, which parses back with *no* hostname — the
round trip loses the host. -/
theorem fromUrl_ipv6_roundtrip_counterexample :
    fromUrl "http://[::1]:8108" = .ok ipv6Node ∧
    ipv6Node.renderUrl = some "http://::1:8108".data ∧
    (urlparseE "http://[::1]:8108".data).map UrlParts.hostname =
      .ok (some "::1".data) ∧
    (urlparseE "http://::1:8108".data).map UrlParts.hostname =
      .ok Option.none :=
  ⟨rfl, by decide, rfl, rfl⟩

/-- C1 (amended): for every URL string accepted by `Node.from_url` whose
netloc does not use the bracketed (IPv6) host form, `url()` on the
resulting node renders a URL that parses back to the same host, port,
scheme and path as the input URL.  (Query, fragment and params are dropped
by `url()`, which the claim does not constrain.) -/
theorem fromUrl_roundtrip (u : List Char) (n : Node) (pu : UrlParts)
    (hok : fromUrlL u = .ok n) (hpu : urlparseE u = .ok pu)
    (hnb : pu.netloc.contains '[' = false) :
    ∃ r pr, n.renderUrl = some r ∧ urlparseE r = .ok pr ∧
      pr.hostname = pu.hostname ∧ pr.portE = pu.portE ∧
      pr.scheme = pu.scheme ∧ pr.path = pu.path := by
  rcases fromUrlL_ok_iff.mp hok with ⟨parts, h, p, hp', hh, hpo, hpos, hsne, hn⟩
  subst hn
  have hpe : parts = pu := Except.ok.inj (hp'.symm.trans hpu)
  subst hpe
  rcases urlparseE_ok_inv hpu with ⟨hscheme, hnetloc, hpath, hbr⟩
  -- scheme structure of the original URL
  rcases hsp : splitScheme u with ⟨s0, rest1⟩
  have hs0 : parts.scheme = s0 := by rw [hscheme, hsp]
  rcases splitScheme_fst_spec hsp (by rw [← hs0]; exact hsne) with
    ⟨pre, hpre_eq, hpre_ne, hpre_head, hpre_all, _⟩
  have hs_eq : parts.scheme = pre.map asciiLower := hs0.trans hpre_eq
  -- netloc character facts
  have hnet_mem : ∀ c ∈ parts.netloc, netlocStop c = false := by
    intro c hc
    rw [hnetloc] at hc
    exact splitNetloc_fst_mem _ c hc
  have hnet_nobr1 : ('[' : Char) ∉ parts.netloc := not_mem_of_contains_eq_false hnb
  have hbr2 : parts.netloc.contains ']' = false := by
    have hx : parts.netloc.contains '[' = parts.netloc.contains ']' := by
      rw [hnetloc]; exact hbr
    rw [← hx]; exact hnb
  have hnet_nobr2 : (']' : Char) ∉ parts.netloc := not_mem_of_contains_eq_false hbr2
  have hi_nobr : ∀ c ∈ afterLast '@' parts.netloc, (c == '[') = false := by
    intro c hc
    exact beq_eq_false_iff_ne.mpr (fun he => hnet_nobr1 (he ▸ afterLast_mem c hc))
  have hhostinfo := hostinfoOf_nonbracket hi_nobr
  rcases hostname_some_inv hh with ⟨hh0_ne, hh_eq⟩
  have hh0_eq : (hostinfoOf parts.netloc).1 =
      (splitFirst (fun c => c == ':') (afterLast '@' parts.netloc)).1 := by
    rw [hhostinfo]
  -- host characters survive lowering and avoid all delimiters
  have hchars : ∀ c ∈ h, c ≠ ':' ∧ c ≠ '@' ∧ c ≠ '[' ∧ c ≠ ']' ∧
      c ≠ '/' ∧ c ≠ '?' ∧ c ≠ '#' := by
    intro c hc
    rw [hh_eq, hh0_eq] at hc
    rcases List.mem_map.mp hc with ⟨c0, hc0, rfl⟩
    have hc0_colon : (c0 == ':') = false :=
      splitFirst_fst_false (p := fun c => c == ':') _ c0 hc0
    have hc0_hi : c0 ∈ afterLast '@' parts.netloc :=
      splitFirst_fst_mem (p := fun c => c == ':') _ c0 hc0
    have hc0_at : c0 ≠ '@' := fun he => afterLast_not_mem '@' parts.netloc (he ▸ hc0_hi)
    have hc0_net : c0 ∈ parts.netloc := afterLast_mem _ hc0_hi
    have hc0_stop := hnet_mem c0 hc0_net
    rw [netlocStop] at hc0_stop
    simp only [Bool.or_eq_false_iff] at hc0_stop
    rcases hc0_stop with ⟨⟨hsl, hqm⟩, hhash⟩
    have hc0_br1 : c0 ≠ '[' := fun he => hnet_nobr1 (he ▸ hc0_net)
    have hc0_br2 : c0 ≠ ']' := fun he => hnet_nobr2 (he ▸ hc0_net)
    exact ⟨asciiLower_preserve_ne (by decide) (beq_eq_false_iff_ne.mp hc0_colon),
      asciiLower_preserve_ne (by decide) hc0_at,
      asciiLower_preserve_ne (by decide) hc0_br1,
      asciiLower_preserve_ne (by decide) hc0_br2,
      asciiLower_preserve_ne (by decide) (beq_eq_false_iff_ne.mp hsl),
      asciiLower_preserve_ne (by decide) (beq_eq_false_iff_ne.mp hqm),
      asciiLower_preserve_ne (by decide) (beq_eq_false_iff_ne.mp hhash)⟩
  have hh_ne : h ≠ [] := by
    rw [hh_eq]
    simp only [ne_eq, List.map_eq_nil_iff]
    exact hh0_ne
  have hnet_ne : parts.netloc ≠ [] := by
    cases hx : (hostinfoOf parts.netloc).1 with
    | nil => exact absurd hx hh0_ne
    | cons c0 t0 =>
        have hc0 : c0 ∈ (hostinfoOf parts.netloc).1 := by
          rw [hx]; exact List.mem_cons_self _ _
        rw [hh0_eq] at hc0
        exact List.ne_nil_of_mem (afterLast_mem _ (splitFirst_fst_mem _ _ hc0))
  rcases portE_ok_some_inv hpo with ⟨l, hl_snd, hl_dig, hl_val, hple⟩
  -- path facts
  have hpa_shape := parsed_path_shape hpu hnet_ne
  have hpa_mem : ∀ c ∈ parts.path, ((c == '#') = false) ∧ ((c == '?') = false) := by
    intro c hc
    rw [hpath] at hc
    have hc2 := pathWithoutParams_mem c hc
    exact ⟨splitFirst_fst_false (p := fun c => c == '#') _ c
        (splitFirst_fst_mem (p := fun c => c == '?') _ c hc2),
      splitFirst_fst_false (p := fun c => c == '?') _ c hc2⟩
  -- digit characters avoid all delimiters
  have hdigit_ne : ∀ c ∈ natDigits p, c ≠ ':' ∧ c ≠ '@' ∧ c ≠ '[' ∧ c ≠ ']' ∧
      c ≠ '/' ∧ c ≠ '?' ∧ c ≠ '#' := by
    intro c hc
    have hd := isAsciiDigit_toNat (natDigits_all_digit p c hc)
    exact ⟨char_ne_of_toNat_ne (show c.toNat ≠ 58 by omega),
      char_ne_of_toNat_ne (show c.toNat ≠ 64 by omega),
      char_ne_of_toNat_ne (show c.toNat ≠ 91 by omega),
      char_ne_of_toNat_ne (show c.toNat ≠ 93 by omega),
      char_ne_of_toNat_ne (show c.toNat ≠ 47 by omega),
      char_ne_of_toNat_ne (show c.toNat ≠ 63 by omega),
      char_ne_of_toNat_ne (show c.toNat ≠ 35 by omega)⟩
  -- facts about the rendered netloc
  have hNL_stop : ∀ c ∈ h ++ ':' :: natDigits p, netlocStop c = false := by
    intro c hc
    rcases List.mem_append.mp hc with hch | hcd
    · rcases hchars c hch with ⟨_, _, _, _, h5, h6, h7⟩
      exact netlocStop_eq_false h5 h6 h7
    · rcases List.mem_cons.mp hcd with rfl | hcd2
      · decide
      · rcases hdigit_ne c hcd2 with ⟨_, _, _, _, h5, h6, h7⟩
        exact netlocStop_eq_false h5 h6 h7
  have hNL_nobr1 : ('[' : Char) ∉ h ++ ':' :: natDigits p := by
    intro hc
    rcases List.mem_append.mp hc with hch | hcd
    · exact (hchars _ hch).2.2.1 rfl
    · rcases List.mem_cons.mp hcd with he | hcd2
      · exact absurd he (by decide)
      · exact (hdigit_ne _ hcd2).2.2.1 rfl
  have hNL_nobr2 : (']' : Char) ∉ h ++ ':' :: natDigits p := by
    intro hc
    rcases List.mem_append.mp hc with hch | hcd
    · exact (hchars _ hch).2.2.2.1 rfl
    · rcases List.mem_cons.mp hcd with he | hcd2
      · exact absurd he (by decide)
      · exact (hdigit_ne _ hcd2).2.2.2.1 rfl
  have hNL_noat : ('@' : Char) ∉ h ++ ':' :: natDigits p := by
    intro hc
    rcases List.mem_append.mp hc with hch | hcd
    · exact (hchars _ hch).2.1 rfl
    · rcases List.mem_cons.mp hcd with he | hcd2
      · exact absurd he (by decide)
      · exact (hdigit_ne _ hcd2).2.1 rfl
  have h_nocolon : ∀ c ∈ h, (c == ':') = false := fun c hc =>
    beq_eq_false_iff_ne.mpr (hchars c hc).1
  -- the rendered URL
  have hrender : Node.renderUrl
      { host := PyVal.str ⟨h⟩, port := PyVal.int p,
        path := PyVal.str ⟨parts.path⟩, protocol := PyVal.str ⟨parts.scheme⟩ } =
      some (parts.scheme ++ ':' :: '/' :: '/' ::
        ((h ++ ':' :: natDigits p) ++ parts.path)) := by
    have hnative : Node.renderUrl
        { host := PyVal.str ⟨h⟩, port := PyVal.int p,
          path := PyVal.str ⟨parts.path⟩, protocol := PyVal.str ⟨parts.scheme⟩ } =
        some (((parts.scheme ++ (':' :: '/' :: '/' :: h)) ++
          (':' :: natDigits p)) ++ parts.path) := rfl
    rw [hnative]
    simp [List.append_assoc]
  -- parsing the rendered URL
  have hss : splitScheme (parts.scheme ++ ':' :: '/' :: '/' ::
      ((h ++ ':' :: natDigits p) ++ parts.path)) =
      (parts.scheme, '/' :: '/' :: ((h ++ ':' :: natDigits p) ++ parts.path)) := by
    rw [hs_eq]
    exact splitScheme_render hpre_ne hpre_head hpre_all
  have hsn : splitNetloc ('/' :: '/' :: ((h ++ ':' :: natDigits p) ++ parts.path)) =
      (h ++ ':' :: natDigits p, parts.path) :=
    splitNetloc_render hNL_stop hpa_shape
  have hcont1 : (h ++ ':' :: natDigits p).contains '[' = false :=
    contains_eq_false_of_not_mem hNL_nobr1
  have hcont2 : (h ++ ':' :: natDigits p).contains ']' = false :=
    contains_eq_false_of_not_mem hNL_nobr2
  have hidem2 : pathWithoutParams parts.path = parts.path := by
    rw [hpath, pathWithoutParams_idem]
  have hparse : urlparseE (parts.scheme ++ ':' :: '/' :: '/' ::
      ((h ++ ':' :: natDigits p) ++ parts.path)) =
      .ok ⟨parts.scheme, h ++ ':' :: natDigits p, parts.path⟩ := by
    rw [urlparseE, hss]
    dsimp only
    rw [hsn]
    dsimp only
    rw [if_neg (by rw [hcont1, hcont2]; simp)]
    rw [splitFirst_eq_none (fun c hc => (hpa_mem c hc).1)]
    dsimp only
    rw [splitFirst_eq_none (fun c hc => (hpa_mem c hc).2)]
    dsimp only
    rw [hidem2]
  -- hostinfo of the rendered netloc
  have hafter : afterLast '@' (h ++ ':' :: natDigits p) = h ++ ':' :: natDigits p :=
    afterLast_eq_self hNL_noat
  have hNL_nobrA : ∀ c ∈ afterLast '@' (h ++ ':' :: natDigits p),
      (c == '[') = false := by
    intro c hc
    rw [hafter] at hc
    exact beq_eq_false_iff_ne.mpr (fun he => hNL_nobr1 (he ▸ hc))
  have hsfNL : splitFirst (fun c => c == ':') (h ++ ':' :: natDigits p) =
      (h, some (natDigits p)) :=
    splitFirst_append h_nocolon (by decide)
  have hNL_hostinfo : hostinfoOf (h ++ ':' :: natDigits p) =
      (h, some (natDigits p)) := by
    rw [hostinfoOf_nonbracket hNL_nobrA, hafter, hsfNL]
    cases hdg : natDigits p with
    | nil => exact absurd hdg (natDigits_ne_nil p)
    | cons c cs => rfl
  have hlower : h.map asciiLower = h := by
    rw [hh_eq, List.map_map]
    apply List.map_congr_left
    intro a _
    exact asciiLower_idem a
  have hhostname_r : UrlParts.hostname
      ⟨parts.scheme, h ++ ':' :: natDigits p, parts.path⟩ = some h := by
    rw [UrlParts.hostname]
    dsimp only
    rw [hNL_hostinfo]
    dsimp only
    rw [if_neg (by simp [List.isEmpty_iff, hh_ne]), hlower]
  have hport_r : UrlParts.portE
      ⟨parts.scheme, h ++ ':' :: natDigits p, parts.path⟩ = .ok (some p) := by
    rw [UrlParts.portE]
    dsimp only
    rw [hNL_hostinfo]
    dsimp only
    rw [if_pos (List.all_eq_true.mpr (natDigits_all_digit p)),
      digitsVal_natDigits, if_pos hple]
  exact ⟨parts.scheme ++ ':' :: '/' :: '/' ::
      ((h ++ ':' :: natDigits p) ++ parts.path),
    ⟨parts.scheme, h ++ ':' :: natDigits p, parts.path⟩,
    hrender, hparse, hhostname_r.trans hh.symm, hport_r.trans hpo.symm, rfl, rfl⟩

/-- C1 witness: the round trip applied at `http://Example.COM:8108/a/b`
(host lowercased by the parse; path preserved). -/
theorem fromUrl_roundtrip_witness :
    ∃ r pr,
      Node.renderUrl { host := PyVal.str "example.com", port := PyVal.int 8108,
                       path := PyVal.str "/a/b",
                       protocol := PyVal.str "http" } = some r ∧
      urlparseE r = .ok pr ∧
      pr.hostname = some "example.com".data ∧
      pr.portE = .ok (some 8108) ∧
      pr.scheme = "http".data ∧ pr.path = "/a/b".data := by
  have h := fromUrl_roundtrip "http://Example.COM:8108/a/b".data
    { host := PyVal.str "example.com", port := PyVal.int 8108,
      path := PyVal.str "/a/b", protocol := PyVal.str "http" }
    ⟨"http".data, "Example.COM:8108".data, "/a/b".data⟩ rfl rfl rfl
  rcases h with ⟨r, pr, h1, h2, h3, h4, h5, h6⟩
  exact ⟨r, pr, h1, h2, by rw [h3]; rfl, by rw [h4]; rfl,
    by rw [h5], by rw [h6]⟩

end Typesense
